import Mathlib

/-!
Shallow embedding of `src/update-prices.ts` (squarespace-x-tcgplayer) and
proofs about its price-reconciliation pipeline.

Modeling conventions:
* Strings are lists of characters (`Str`).
* JavaScript numbers flowing through the script are exact decimals: every
  number here is produced by `parseFloat` on a decimal string or by `toFixed`,
  so a value is an integer mantissa over a power of ten (`Dec`), plus the
  distinguished `NaN` and `null` values (`JSNum`).
* Network and DOM inputs are parameters: the search-result cards, the price
  cells of the detail page, the page-wait outcomes, the currency converter,
  the page responses of the catalog endpoint and the write responses.
* A thrown exception is `Except.error ()`; the script's `try/finally` in
  `scrapeCardPrices` only closes the browser and rethrows.
-/

namespace UpdatePrices

/-- Strings are modeled as lists of characters. -/
abbrev Str := List Char

/-- Exact decimal number: the denoted value is `num / 10 ^ exp`. -/
structure Dec where
  num : ℤ
  exp : ℕ
deriving DecidableEq

/-- Two decimals denote the same numeric value. -/
def Dec.valueEq (a b : Dec) : Bool := a.num * 10 ^ b.exp == b.num * 10 ^ a.exp

/-- JavaScript numeric value as it appears in the script: `null`, `NaN`, or a
finite number. -/
inductive JSNum where
  | null : JSNum
  | nan : JSNum
  | num : Dec → JSNum
deriving DecidableEq

/-- JavaScript truthiness of a number-or-null: `0`, `NaN` and `null` are falsy. -/
def JSNum.truthy : JSNum → Bool
  | .num d => !(d.num == 0)
  | _ => false

/-- JavaScript strict inequality `!==` on the compared price values
(`NaN !== NaN` holds). -/
def jsStrictNe : JSNum → JSNum → Bool
  | .num a, .num b => !(a.valueEq b)
  | .null, .null => false
  | _, _ => true

/-- Whitespace for `String.prototype.trim`. -/
def isWsChar (c : Char) : Bool := c = ' ' || c = '\t' || c = '\n' || c = '\r'

/-- JavaScript `String.prototype.trim`. -/
def trimChars (s : Str) : Str := ((s.dropWhile isWsChar).reverse.dropWhile isWsChar).reverse

/-- JavaScript `String.prototype.toLowerCase` (ASCII folding suffices for the
compared titles). -/
def toLowerChars (s : Str) : Str := s.map Char.toLower

/-- Auxiliary for `jsIncludes`: `sub` is a prefix of `s`. -/
def leadsWith : Str → Str → Bool
  | [], _ => true
  | _ :: _, [] => false
  | a :: as, b :: bs => a == b && leadsWith as bs

/-- JavaScript `s.includes(sub)`: `sub` occurs contiguously in `s`. -/
def jsIncludes : Str → Str → Bool
  | s, sub =>
    leadsWith sub s ||
      match s with
      | [] => false
      | _ :: t => jsIncludes t sub

/-- Numeric value of a decimal digit character. -/
def digitVal (c : Char) : ℕ := c.toNat - 48

/-- Numeric value of a decimal digit string. -/
def digitsVal (ds : Str) : ℕ := ds.foldl (fun a c => 10 * a + digitVal c) 0

/-- Fuel-driven rendering of a natural number's decimal digits. -/
def natDigitsAux : ℕ → ℕ → Str
  | 0, _ => []
  | fuel + 1, n =>
    if n < 10 then [Nat.digitChar n]
    else natDigitsAux fuel (n / 10) ++ [Nat.digitChar (n % 10)]

/-- Decimal digits of a natural number (most significant first). -/
def natDigits (n : ℕ) : Str := natDigitsAux (n + 1) n

/-- Leading minus sign, as consumed by `parseFloat`. -/
def parseSign (s : Str) : Bool × Str :=
  match s with
  | c :: t => if c = '-' then (true, t) else (false, s)
  | [] => (false, s)

/-- Fractional digits after a leading decimal point, as consumed by
`parseFloat`. -/
def parseFrac (s : Str) : Str :=
  match s with
  | c :: t => if c = '.' then t.takeWhile Char.isDigit else []
  | [] => []

/-- JavaScript `parseFloat` on the strings arising in the script: an optional
sign, integer digits, an optional fraction; `NaN` when no digit is consumed.
(The inputs here never carry exponents or leading whitespace.) -/
def parseFloatChars (s : Str) : JSNum :=
  let ps := parseSign s
  let ip := ps.2.takeWhile Char.isDigit
  let fp := parseFrac (ps.2.dropWhile Char.isDigit)
  if ip = [] ∧ fp = [] then .nan
  else
    let mantissa : ℤ := (digitsVal ip : ℤ) * 10 ^ fp.length + (digitsVal fp : ℤ)
    .num ⟨if ps.1 then -mantissa else mantissa, fp.length⟩

/-- Rounding of `d * 100` to an integer, half towards `+∞`, as `toFixed(2)`
performs on the decimal values at hand. -/
def round2Int (d : Dec) : ℤ := Int.fdiv (2 * d.num * 100 + 10 ^ d.exp) (2 * 10 ^ d.exp)

/-- JavaScript `toFixed(2)` on a finite number: the rounded value rendered with
a sign, integer digits, a point and exactly two fractional digits. -/
def toFixed2Chars (d : Dec) : Str :=
  let n := round2Int d
  let a := n.natAbs
  (if n < 0 then ['-'] else []) ++
    natDigits (a / 100) ++ '.' :: [Nat.digitChar (a / 10 % 10), Nat.digitChar (a % 10)]

/-- JavaScript `toFixed(2)` on the values the script passes to it
(`parseFloat` results: numbers or `NaN`). -/
def JSNum.toFixed2 : JSNum → Str
  | .num d => toFixed2Chars d
  | _ => ['N', 'a', 'N']

/-- The characters kept by `priceText.replace(/[^\d.-]/g, '')`. -/
def stripNonNumeric (s : Str) : Str := s.filter (fun c => c.isDigit || c = '.' || c = '-')

/-- One `.product-card` search result: the optional raw text of its
`.product-card__title` node and the optional `href` of its first anchor. -/
structure SearchCard where
  title : Option Str
  link : Option Str
deriving DecidableEq

/-- `card.querySelector('.product-card__title')?.textContent?.trim() || ''`. -/
def effectiveTitle (c : SearchCard) : Str :=
  match c.title with
  | some t => trimChars t
  | none => []

/-- The candidate-matching predicate of `scrapeCardPrices`:
`cardName.toLowerCase().includes(title.toLowerCase())`. -/
def titleMatches (cardName : Str) (c : SearchCard) : Bool :=
  jsIncludes (toLowerChars cardName) (toLowerChars (effectiveTitle c))

/-- `cards.find(card => ...)` over the rendered `.product-card` elements. -/
def findMatchedCard (cardName : Str) (cards : List SearchCard) : Option SearchCard :=
  cards.find? (titleMatches cardName)

/-- Result of the `page.evaluate` matching step:
`matchedCard ? matchedCard.querySelector('a')?.href : null`. -/
def selectCandidateLink (cardName : Str) (cards : List SearchCard) : Option Str :=
  match findMatchedCard cardName cards with
  | some c => c.link
  | none => none

/-- JavaScript falsiness of the matched `card` value (`null`, `undefined`, or
the empty string). -/
def linkFalsy : Option Str → Bool
  | none => true
  | some s => s.isEmpty

/-- One `td` cell of the `.near-mint-table`: its own text content and the text
content of a `.near-mint-table__price` descendant, when present. -/
structure PriceCell where
  text : Option Str
  priceText : Option Str
deriving DecidableEq

/-- `priceText ? parseFloat(priceText.replace(/[^\d.-]/g, '')) : null`. -/
def cellPrice (priceTextOpt : Option Str) : JSNum :=
  match priceTextOpt with
  | some t => if t.isEmpty then .null else parseFloatChars (stripNonNumeric t)
  | none => .null

/-- One step of the label scan: assign the cell price to `normal` or `foil`
according to the trimmed label text. -/
def scanStep (label : Option Str) (price : JSNum) (normal foil : JSNum) : JSNum × JSNum :=
  ((if label = some (("Normal:").data) then price else normal),
   (if label = some (("Foil:").data) then price else foil))

/-- The label/price scan of the detail page
(`for (let i = 0; i < cells.length; i += 2)`), returning the last-assigned
`normal` and `foil` values. -/
def scanCells : List PriceCell → JSNum → JSNum → JSNum × JSNum
  | [], normal, foil => (normal, foil)
  | [c], normal, foil => scanStep (c.text.map trimChars) (cellPrice none) normal foil
  | c :: c' :: rest, normal, foil =>
    let r := scanStep (c.text.map trimChars) (cellPrice c'.priceText) normal foil
    scanCells rest r.1 r.2

/-- Environment of one `scrapeCardPrices` invocation: what the browser session
observes, plus the currency converter.  `searchRenderOk` and `detailRenderOk`
model whether the corresponding page waits succeed; a failed wait makes the
puppeteer call throw. -/
structure ScrapeEnv where
  searchRenderOk : Bool
  cards : List SearchCard
  detailRenderOk : Bool
  cells : List PriceCell
  convert : Dec → Except Unit Dec

/-- The record returned by `scrapeCardPrices` on its happy path. -/
structure CardPrices where
  normalPrice : Option Str
  foilPrice : Option Str
deriving DecidableEq

/-- `priceUSD ? (await Convert(priceUSD).from("USD").to("AUD")).toFixed(2) : null`;
a conversion failure is a thrown exception. -/
def convertComponent (env : ScrapeEnv) (v : JSNum) : Except Unit (Option Str) :=
  if v.truthy then
    match v with
    | .num d => (env.convert d).map (fun r => some (toFixed2Chars r))
    | _ => .ok none
  else .ok none

/-- `TCGPlayer.scrapeCardPrices`: search, match, navigate, extract, convert.
`Except.error` models an exception escaping the call (the `finally` block only
closes the browser and rethrows). -/
def scrapeCardPrices (env : ScrapeEnv) (cardName : Str) : Except Unit (Option CardPrices) := do
  if !env.searchRenderOk then
    throw ()
  let card := selectCandidateLink cardName env.cards
  if linkFalsy card then
    return none
  if !env.detailRenderOk then
    throw ()
  let scanned := scanCells env.cells .null .null
  let normalPrice ← convertComponent env scanned.1
  let foilPrice ← convertComponent env scanned.2
  return some ⟨normalPrice, foilPrice⟩

/-- A product variant, restricted to the fields the script reads: `id`,
`attributes?.["Condition"]`, and `pricing.basePrice.value`. -/
structure Variant where
  id : Str
  condition : Option Str
  basePriceValue : Str
deriving DecidableEq

/-- A catalog product, restricted to the fields the script reads: `id`, `name`,
`variants?`. -/
structure Product where
  id : Str
  name : Str
  variants : Option (List Variant)
deriving DecidableEq

/-- One page of `GET /commerce/products`: the batch of products and
`pagination?.nextPageCursor`. -/
structure PageResponse where
  products : List Product
  nextPageCursor : Option Str
deriving DecidableEq

/-- JavaScript truthiness of the cursor: `undefined`, `null` or `''` end the
loop. -/
def cursorTruthy : Option Str → Bool
  | none => false
  | some s => !s.isEmpty

/-- The do/while body of `Squarespace.getProducts`.  The remote side is the
sequence of page responses it returns, consumed in request order; the second
component counts the requests made. -/
def getProductsLoop : List PageResponse → List Product → ℕ → List Product × ℕ
  | [], acc, k => (acc, k)
  | r :: rest, acc, k =>
    if cursorTruthy r.nextPageCursor then getProductsLoop rest (acc ++ r.products) (k + 1)
    else (acc ++ r.products, k + 1)

/-- `Squarespace.getProducts`: start with no cursor, accumulate batches, stop
when the response carries no (truthy) next-page cursor. -/
def getProducts (responses : List PageResponse) : List Product × ℕ :=
  getProductsLoop responses [] 0

/-- Remote behavior of the variant-update endpoint: whether `response.ok` holds
for a `(productId, variantId)` write, and the error body text otherwise. -/
structure WriteEnv where
  ok : Str → Str → Bool
  errorText : Str → Str → Str

/-- Observable actions of one run. -/
inductive Event where
  | backup : List Product → Event
  | group : Str → Event
  | warnNoPrices : Str → Event
  | writeAttempt : Str → Str → Str → Event
  | updateFailedLog : Str → Str → Event
deriving DecidableEq

/-- `Squarespace.updateProductVariant`: POSTs `price.toFixed(2)` as the new
`basePrice.value`; a non-ok response is only logged (`console.error`), never
thrown. -/
def updateProductVariant (w : WriteEnv) (productId variantId : Str) (price : JSNum) : List Event :=
  Event.writeAttempt productId variantId price.toFixed2 ::
    (if w.ok productId variantId then []
     else [Event.updateFailedLog variantId (w.errorText productId variantId)])

/-- Effect of an accepted write on the remote catalog entry. -/
def applyRemoteUpdate (p : Product) (variantId : Str) (value : Str) : Product :=
  { p with
    variants := p.variants.map (fun vs =>
      vs.map (fun v => if v.id = variantId then { v with basePriceValue := value } else v)) }

/-- `product.variants?.find(v => v.attributes?.["Condition"] === cond)`. -/
def findByCondition (p : Product) (cond : Str) : Option Variant :=
  match p.variants with
  | some vs => vs.find? (fun v => v.condition == some cond)
  | none => none

/-- The "Condition" attribute value of the base variant. -/
def nmCond : Str := ("Near Mint").data

/-- The "Condition" attribute value of the foil variant. -/
def nmFoilCond : Str := ("Near Mint Foil").data

/-- Environment of one whole run. -/
structure RunEnv where
  scrape : Str → ScrapeEnv
  write : WriteEnv

/-- JavaScript falsiness of an optional string. -/
def strFalsy : Option Str → Bool
  | none => true
  | some s => s.isEmpty

/-- `!prices || (!prices.normalPrice && !prices.foilPrice)`. -/
def pricesUnusable : Option CardPrices → Bool
  | none => true
  | some pr => strFalsy pr.normalPrice && strFalsy pr.foilPrice

/-- One conditional variant-update block of the main loop, entered when the
variant was found and the scraped price string is truthy; it compares
`parseFloat` of the stored value against `parseFloat` of the scraped string and
posts an update exactly when they differ (`!==`).  Returns the emitted events
and the remote product state after the block. -/
def runVariantBlock (w : WriteEnv) (p : Product) (variantOpt : Option Variant)
    (priceStr : Option Str) (remote : Product) : List Event × Product :=
  match variantOpt, priceStr with
  | some v, some s =>
    if s.isEmpty then ([], remote)
    else
      let oldPrice := parseFloatChars v.basePriceValue
      let newPrice := parseFloatChars s
      if jsStrictNe oldPrice newPrice then
        (updateProductVariant w p.id v.id newPrice,
         if w.ok p.id v.id then applyRemoteUpdate remote v.id newPrice.toFixed2 else remote)
      else ([], remote)
  | _, _ => ([], remote)

/-- The per-product body of the main loop.  `none` in the second component
models an exception escaping the iteration (which the loop does not catch);
otherwise the remote state of the product after the iteration is returned. -/
def runProduct (env : RunEnv) (p : Product) : List Event × Option Product :=
  match scrapeCardPrices (env.scrape p.name) p.name with
  | .error _ => ([Event.group p.name], none)
  | .ok pricesOpt =>
    if pricesUnusable pricesOpt then
      ([Event.group p.name, Event.warnNoPrices p.name], some p)
    else
      let prices := pricesOpt.getD ⟨none, none⟩
      let rN := runVariantBlock env.write p (findByCondition p nmCond)
        prices.normalPrice p
      let rF := runVariantBlock env.write p (findByCondition p nmFoilCond)
        prices.foilPrice rN.2
      (Event.group p.name :: (rN.1 ++ rF.1), some rF.2)

/-- The `for ... of products` loop: sequential, stopping early when an
iteration throws.  Returns the events, the remote catalog after the loop, and
whether the loop completed without an exception. -/
def runLoop (env : RunEnv) : List Product → List Event × List Product × Bool
  | [] => ([], [], true)
  | p :: rest =>
    match runProduct env p with
    | (evs, none) => (evs, p :: rest, false)
    | (evs, some p2) =>
      let r := runLoop env rest
      (evs ++ r.1, p2 :: r.2.1, r.2.2)

/-- Outcome of one run: the events, the process exit code, and the remote
catalog at the end. -/
structure RunResult where
  events : List Event
  exitCode : ℕ
  finalCatalog : List Product
deriving DecidableEq

/-- The top-level IIFE: fetch the catalog, back it up (`backupOk = false`
models a throwing `fs.writeFileSync`), then run the loop; any uncaught error
reaches the top-level `catch` and `process.exit(1)`. -/
def mainRun (env : RunEnv) (fetched : Except Unit (List Product)) (backupOk : Bool) : RunResult :=
  match fetched with
  | .error _ => ⟨[], 1, []⟩
  | .ok products =>
    if backupOk then
      let r := runLoop env products
      ⟨Event.backup products :: r.1, if r.2.2 then 0 else 1, r.2.1⟩
    else ⟨[], 1, products⟩

/-- The write requests among a list of events. -/
def writeAttemptsOf (evs : List Event) : List (Str × Str × Str) :=
  evs.filterMap (fun e => match e with
    | .writeAttempt pid vid v => some (pid, vid, v)
    | _ => none)

/-- The `console.group` product headers among a list of events. -/
def groupsOf (evs : List Event) : List Str :=
  evs.filterMap (fun e => match e with
    | .group n => some n
    | _ => none)

/-- Whether an `Except` result is a normal return. -/
def exOk {α : Type} (r : Except Unit α) : Bool :=
  match r with
  | .ok _ => true
  | .error _ => false

/-! ### Lemmas about the string and number primitives -/

theorem leadsWith_iff (sub s : Str) : leadsWith sub s = true ↔ ∃ r, s = sub ++ r := by
  induction sub generalizing s with
  | nil => simp [leadsWith]
  | cons a as ih =>
    cases s with
    | nil => simp [leadsWith]
    | cons b bs =>
      simp only [leadsWith, Bool.and_eq_true, beq_iff_eq, ih]
      constructor
      · rintro ⟨rfl, r, rfl⟩
        exact ⟨r, rfl⟩
      · rintro ⟨r, h⟩
        injection h with h1 h2
        exact ⟨h1.symm, r, h2⟩

theorem jsIncludes_iff (s sub : Str) : jsIncludes s sub = true ↔ ∃ l r, s = l ++ (sub ++ r) := by
  induction s with
  | nil =>
    simp only [jsIncludes, Bool.or_eq_true, leadsWith_iff]
    constructor
    · rintro (⟨r, hr⟩ | h)
      · exact ⟨[], r, by simpa using hr⟩
      · cases h
    · rintro ⟨l, r, hl⟩
      left
      rcases List.append_eq_nil.mp hl.symm with ⟨h1, h2⟩
      exact ⟨r, h2.symm⟩
  | cons c t ih =>
    simp only [jsIncludes, Bool.or_eq_true, leadsWith_iff, ih]
    constructor
    · rintro (⟨r, hr⟩ | ⟨l, r, hl⟩)
      · exact ⟨[], r, by simpa using hr⟩
      · exact ⟨c :: l, r, by simp [hl]⟩
    · rintro ⟨l, r, hl⟩
      cases l with
      | nil => exact Or.inl ⟨r, by simpa using hl⟩
      | cons x xs =>
        injection hl with h1 h2
        exact Or.inr ⟨xs, r, h2⟩

theorem jsIncludes_nil_sub (s : Str) : jsIncludes s [] = true := by
  rw [jsIncludes_iff]
  exact ⟨[], s, rfl⟩


theorem digitChar_isDigit {d : ℕ} (h : d < 10) : (Nat.digitChar d).isDigit = true := by
  interval_cases d <;> decide

theorem digitVal_digitChar {d : ℕ} (h : d < 10) : digitVal (Nat.digitChar d) = d := by
  interval_cases d <;> decide

theorem digitsVal_append_one (xs : Str) (c : Char) :
    digitsVal (xs ++ [c]) = 10 * digitsVal xs + digitVal c := by
  simp [digitsVal, List.foldl_append]

theorem natDigitsAux_spec (fuel : ℕ) : ∀ n, n < fuel →
    natDigitsAux fuel n ≠ [] ∧ (∀ c ∈ natDigitsAux fuel n, c.isDigit = true) ∧
      digitsVal (natDigitsAux fuel n) = n := by
  induction fuel with
  | zero => intro n h; omega
  | succ f ih =>
    intro n h
    rw [natDigitsAux]
    by_cases h10 : n < 10
    · rw [if_pos h10]
      refine ⟨by simp, ?_, ?_⟩
      · intro c hc
        rw [List.mem_singleton] at hc
        subst hc
        exact digitChar_isDigit h10
      · simp [digitsVal, digitVal_digitChar h10]
    · rw [if_neg h10]
      have hdiv : n / 10 < f := by omega
      obtain ⟨hne, hdig, hval⟩ := ih (n / 10) hdiv
      refine ⟨by simp [hne], ?_, ?_⟩
      · intro c hc
        rcases List.mem_append.mp hc with hc | hc
        · exact hdig c hc
        · rw [List.mem_singleton] at hc
          subst hc
          exact digitChar_isDigit (by omega)
      · rw [digitsVal_append_one, hval, digitVal_digitChar (show n % 10 < 10 by omega)]
        omega

theorem natDigits_spec (n : ℕ) :
    natDigits n ≠ [] ∧ (∀ c ∈ natDigits n, c.isDigit = true) ∧ digitsVal (natDigits n) = n :=
  natDigitsAux_spec (n + 1) n (by omega)

theorem takeWhile_all_append {p : Char → Bool} :
    ∀ xs : Str, (∀ c ∈ xs, p c = true) → ∀ y ys, p y = false →
      (xs ++ y :: ys).takeWhile p = xs ∧ (xs ++ y :: ys).dropWhile p = y :: ys := by
  intro xs
  induction xs with
  | nil =>
    intro _ y ys hy
    simp [List.takeWhile_cons, List.dropWhile_cons, hy]
  | cons a as ih =>
    intro hall y ys hy
    have ha : p a = true := hall a (by simp)
    have hr := ih (fun c hc => hall c (by simp [hc])) y ys hy
    simp [List.takeWhile_cons, List.dropWhile_cons, ha, hr.1, hr.2]

example (m : ℤ) : Int.fdiv (2 * m * 100 + 100) 200 = m := by
  rw [Int.fdiv_eq_ediv _ (by norm_num)]
  omega

theorem round2Int_of_exp2 (m : ℤ) : round2Int ⟨m, 2⟩ = m := by
  unfold round2Int
  norm_num
  rw [Int.fdiv_eq_ediv _ (by norm_num)]
  omega


theorem parseFloat_render (neg : Bool) (ipn f1 f2 : ℕ) (h1 : f1 < 10) (h2 : f2 < 10) :
    parseFloatChars ((cond neg ['-'] []) ++
        (natDigits ipn ++ '.' :: [Nat.digitChar f1, Nat.digitChar f2])) =
      .num ⟨(cond neg (-1) 1) * ((ipn : ℤ) * 100 + ((10 * f1 + f2 : ℕ) : ℤ)), 2⟩ := by
  obtain ⟨hne, hdig, hval⟩ := natDigits_spec ipn
  have hdot : ('.').isDigit = false := by decide
  have htake := takeWhile_all_append (natDigits ipn) hdig '.'
    [Nat.digitChar f1, Nat.digitChar f2] hdot
  have hsign : parseSign ((cond neg ['-'] []) ++
      (natDigits ipn ++ '.' :: [Nat.digitChar f1, Nat.digitChar f2])) =
      (neg, natDigits ipn ++ '.' :: [Nat.digitChar f1, Nat.digitChar f2]) := by
    cases neg with
    | true => simp [parseSign]
    | false =>
      cases hh : natDigits ipn with
      | nil => exact absurd hh hne
      | cons d ds =>
        have hd : d.isDigit = true := hdig d (by rw [hh]; simp)
        have hdne : ¬(d = '-') := by
          intro he
          rw [he] at hd
          exact absurd hd (by decide)
        simp [parseSign, hh, hdne]
  have hfrac : parseFrac ('.' :: [Nat.digitChar f1, Nat.digitChar f2]) =
      [Nat.digitChar f1, Nat.digitChar f2] := by
    simp [parseFrac, List.takeWhile_cons, digitChar_isDigit h1, digitChar_isDigit h2]
  simp only [parseFloatChars, hsign, htake.1, htake.2, hfrac]
  rw [if_neg (by simp [hne])]
  simp only [hval]
  have hdv : digitsVal [Nat.digitChar f1, Nat.digitChar f2] = 10 * f1 + f2 := by
    simp [digitsVal, digitVal_digitChar h1, digitVal_digitChar h2]
  rw [hdv]
  cases neg <;> simp


theorem parse_toFixed2 (d : Dec) : parseFloatChars (toFixed2Chars d) = .num ⟨round2Int d, 2⟩ := by
  simp only [toFixed2Chars]
  have h1 : (round2Int d).natAbs / 10 % 10 < 10 := Nat.mod_lt _ (by omega)
  have h2 : (round2Int d).natAbs % 10 < 10 := Nat.mod_lt _ (by omega)
  by_cases hneg : round2Int d < 0
  · have hr := parseFloat_render true ((round2Int d).natAbs / 100)
      ((round2Int d).natAbs / 10 % 10) ((round2Int d).natAbs % 10) h1 h2
    simp only [Bool.cond_true] at hr
    rw [if_pos hneg, List.append_assoc, hr]
    simp only [JSNum.num.injEq, Dec.mk.injEq, and_true]
    omega
  · have hr := parseFloat_render false ((round2Int d).natAbs / 100)
      ((round2Int d).natAbs / 10 % 10) ((round2Int d).natAbs % 10) h1 h2
    simp only [Bool.cond_false, List.nil_append] at hr
    rw [if_neg hneg]
    simp only [List.nil_append, List.append_assoc]
    rw [hr]
    simp only [JSNum.num.injEq, Dec.mk.injEq, and_true]
    omega


theorem toFixed2Chars_ne_nil (d : Dec) : toFixed2Chars d ≠ [] := by
  simp only [toFixed2Chars]
  obtain ⟨hne, -, -⟩ := natDigits_spec ((round2Int d).natAbs / 100)
  by_cases h : round2Int d < 0 <;> simp [h, hne]

theorem toFixed2Chars_isEmpty (d : Dec) : (toFixed2Chars d).isEmpty = false := by
  have := toFixed2Chars_ne_nil d
  cases h : toFixed2Chars d with
  | nil => exact absurd h this
  | cons a t => simp [List.isEmpty]

theorem toFixed2_stable (d : Dec) : toFixed2Chars ⟨round2Int d, 2⟩ = toFixed2Chars d := by
  simp only [toFixed2Chars, round2Int_of_exp2]

theorem parse_stored_value (m : ℤ) :
    parseFloatChars (toFixed2Chars ⟨m, 2⟩) = .num ⟨m, 2⟩ := by
  rw [parse_toFixed2, round2Int_of_exp2]

theorem valueEq_refl (d : Dec) : d.valueEq d = true := by
  simp [Dec.valueEq]

theorem jsStrictNe_self (d : Dec) : jsStrictNe (.num d) (.num d) = false := by
  simp [jsStrictNe, valueEq_refl]


theorem getProductsLoop_chain (last : PageResponse)
    (hlast : cursorTruthy last.nextPageCursor = false) :
    ∀ (init : List PageResponse) (acc : List Product) (k : ℕ),
      (∀ r ∈ init, cursorTruthy r.nextPageCursor = true) →
      getProductsLoop (init ++ [last]) acc k =
        (acc ++ ((init ++ [last]).map PageResponse.products).flatten, k + init.length + 1) := by
  intro init
  induction init with
  | nil =>
    intro acc k _
    simp [getProductsLoop, hlast]
  | cons r rest ih =>
    intro acc k hinit
    have hr : cursorTruthy r.nextPageCursor = true := hinit r (by simp)
    have hrec := ih (acc ++ r.products) (k + 1) (fun x hx => hinit x (by simp [hx]))
    rw [List.cons_append, getProductsLoop, if_pos hr, hrec]
    simp only [List.map_cons, List.flatten_cons, Prod.mk.injEq, List.append_assoc, List.length_cons]
    exact ⟨trivial, by omega⟩

/-- C2: for a cursor chain ending in an absent cursor, `getProducts` returns the
concatenation of all page batches in response order, requesting each page
exactly once; a zero-product catalog yields the empty sequence. -/
theorem c2_pagination_completeness (init : List PageResponse) (last : PageResponse)
    (hinit : ∀ r ∈ init, cursorTruthy r.nextPageCursor = true)
    (hlast : cursorTruthy last.nextPageCursor = false) :
    getProducts (init ++ [last]) =
      (((init ++ [last]).map PageResponse.products).flatten, init.length + 1) := by
  unfold getProducts
  rw [getProductsLoop_chain last hlast init [] 0 hinit]
  simp

/-- C2 witness: a zero-product single-page catalog returns the empty sequence in
one request, and a two-page catalog returns both batches in order. -/
theorem c2_pagination_completeness_witness :
    getProducts [⟨[], none⟩] = ([], 1) ∧
      getProducts [⟨[⟨("a").data, ("A").data, none⟩], some (("c2").data)⟩,
        ⟨[⟨("b").data, ("B").data, none⟩], none⟩] =
        ([⟨("a").data, ("A").data, none⟩, ⟨("b").data, ("B").data, none⟩], 2) := by
  constructor
  · have h := c2_pagination_completeness [] ⟨[], none⟩ (by simp) (by decide)
    simpa using h
  · have h := c2_pagination_completeness [⟨[⟨("a").data, ("A").data, none⟩], some (("c2").data)⟩]
      ⟨[⟨("b").data, ("B").data, none⟩], none⟩ (by intro r hr; simp at hr; subst hr; decide)
      (by decide)
    simpa using h


theorem find?_append_all_false {α : Type} (p : α → Bool) (l2 : List α) :
    ∀ l1 : List α, (∀ b ∈ l1, p b = false) → (l1 ++ l2).find? p = l2.find? p := by
  intro l1
  induction l1 with
  | nil => intro _; simp
  | cons a as ih =>
    intro h
    have ha : p a = false := h a (by simp)
    rw [List.cons_append, List.find?_cons_of_neg _ (by simp [ha]), ih (fun b hb => h b (by simp [hb]))]

/-- C5: the lookup selects the first candidate whose title, lowercased, occurs
as a substring of the lowercased input card name (containment in that direction
only), and yields no match when no candidate title is so contained. -/
theorem c5_containment_rule (name : Str) (cards : List SearchCard) :
    (∀ c : SearchCard, titleMatches name c = true ↔
        ∃ l r, toLowerChars name = l ++ (toLowerChars (effectiveTitle c) ++ r)) ∧
    ((∀ c ∈ cards, titleMatches name c = false) → selectCandidateLink name cards = none) ∧
    (∀ cards1 c cards2, cards = cards1 ++ c :: cards2 →
      (∀ b ∈ cards1, titleMatches name b = false) → titleMatches name c = true →
      selectCandidateLink name cards = c.link) := by
  refine ⟨fun c => jsIncludes_iff (toLowerChars name) (toLowerChars (effectiveTitle c)), ?_, ?_⟩
  · intro h
    unfold selectCandidateLink findMatchedCard
    rw [List.find?_eq_none.mpr (fun x hx => by simp [h x hx])]
  · rintro cards1 c cards2 rfl hbefore hc
    unfold selectCandidateLink findMatchedCard
    rw [find?_append_all_false _ _ cards1 hbefore, List.find?_cons_of_pos _ hc]

/-- C5 witness: with a non-matching candidate first and a matching one second,
the second candidate's link is selected; reverse containment does not match. -/
theorem c5_containment_rule_witness :
    selectCandidateLink (("Island").data)
      [⟨some (("Island (Foil)").data), some (("l1").data)⟩,
       ⟨some (("island").data), some (("l2").data)⟩] = some (("l2").data) := by
  have h := (c5_containment_rule (("Island").data)
    [⟨some (("Island (Foil)").data), some (("l1").data)⟩,
     ⟨some (("island").data), some (("l2").data)⟩]).2.2
    [⟨some (("Island (Foil)").data), some (("l1").data)⟩]
    ⟨some (("island").data), some (("l2").data)⟩ [] rfl
    (by intro b hb; simp at hb; subst hb; decide) (by decide)
  simpa using h


/-- The spec's matching-rule example: input name "Island (Foil) [Set Name]". -/
def islandName : Str := ("Island (Foil) [Set Name]").data

/-- The spec's matching-rule example: candidate titles in result order
"Island" then "Island (Foil)", with distinct links. -/
def islandCards : List SearchCard :=
  [⟨some (("Island").data), some (("link-island").data)⟩,
   ⟨some (("Island (Foil)").data), some (("link-island-foil").data)⟩]

/-- C6 counterexample: on the spec's own example the matching step selects the
candidate titled "Island" (the first containment match), not the candidate
titled "Island (Foil)". -/
theorem c6_counterexample :
    selectCandidateLink islandName islandCards = some (("link-island").data) ∧
      selectCandidateLink islandName islandCards ≠ some (("link-island-foil").data) := by
  decide

/-- C6 (amended): given candidate titles ["Island", "Island (Foil)"] in that
order and input name "Island (Foil) [Set Name]", the matching step selects the
first candidate, titled "Island", since its title is already contained in the
input name and `find` keeps the first match. -/
theorem c6_first_match_selected :
    selectCandidateLink islandName islandCards = some (("link-island").data) := by
  decide

/-- C10: a candidate whose title is missing or trims to the empty string
satisfies the containment predicate, and when it precedes every genuinely
matching candidate its link is the one selected. -/
theorem c10_empty_title_matches (name : Str) (c : SearchCard)
    (cards1 cards2 : List SearchCard)
    (hempty : c.title = none ∨ trimChars (c.title.getD []) = [])
    (hbefore : ∀ b ∈ cards1, titleMatches name b = false) :
    titleMatches name c = true ∧
      selectCandidateLink name (cards1 ++ c :: cards2) = c.link := by
  have ht : effectiveTitle c = [] := by
    rcases hempty with h | h
    · simp [effectiveTitle, h]
    · cases hc : c.title with
      | none => simp [effectiveTitle, hc]
      | some t =>
        rw [hc] at h
        simp only [Option.getD_some] at h
        simp [effectiveTitle, hc, h]
  have hm : titleMatches name c = true := by
    rw [titleMatches, ht]
    simpa [toLowerChars] using jsIncludes_nil_sub (toLowerChars name)
  refine ⟨hm, ?_⟩
  unfold selectCandidateLink findMatchedCard
  rw [find?_append_all_false _ _ cards1 hbefore, List.find?_cons_of_pos _ hm]

/-- C10 witness: an untitled candidate placed before the genuine match is
selected, its link becoming the match result. -/
theorem c10_empty_title_matches_witness :
    titleMatches (("Black Lotus").data) ⟨some (("  ").data), some (("link-empty").data)⟩ = true ∧
      selectCandidateLink (("Black Lotus").data)
        ([⟨some (("Mox Pearl").data), some (("link-mox").data)⟩] ++
          ⟨some (("  ").data), some (("link-empty").data)⟩ ::
            [⟨some (("Black Lotus").data), some (("link-lotus").data)⟩]) =
        some (("link-empty").data) :=
  c10_empty_title_matches (("Black Lotus").data)
    ⟨some (("  ").data), some (("link-empty").data)⟩
    [⟨some (("Mox Pearl").data), some (("link-mox").data)⟩]
    [⟨some (("Black Lotus").data), some (("link-lotus").data)⟩]
    (Or.inr (by decide))
    (by intro b hb; simp at hb; subst hb; decide)


theorem scrape_searchFail (env : ScrapeEnv) (name : Str) (h : env.searchRenderOk = false) :
    scrapeCardPrices env name = .error () := by
  simp [scrapeCardPrices, h, Bind.bind, Except.bind, throw, throwThe, MonadExceptOf.throw, Functor.map, Except.map, pure, Except.pure]

theorem scrape_noMatch (env : ScrapeEnv) (name : Str) (hs : env.searchRenderOk = true)
    (h : linkFalsy (selectCandidateLink name env.cards) = true) :
    scrapeCardPrices env name = .ok none := by
  simp [scrapeCardPrices, hs, h]
  rfl

theorem scrape_detailFail (env : ScrapeEnv) (name : Str) (hs : env.searchRenderOk = true)
    (hl : linkFalsy (selectCandidateLink name env.cards) = false)
    (hd : env.detailRenderOk = false) :
    scrapeCardPrices env name = .error () := by
  simp [scrapeCardPrices, hs, hl, hd, Bind.bind, Except.bind, throw, throwThe, MonadExceptOf.throw, Functor.map, Except.map, pure, Except.pure]

theorem scrape_main_path (env : ScrapeEnv) (name : Str) (hs : env.searchRenderOk = true)
    (hl : linkFalsy (selectCandidateLink name env.cards) = false)
    (hd : env.detailRenderOk = true) :
    scrapeCardPrices env name =
      (convertComponent env (scanCells env.cells .null .null).1).bind (fun np =>
        (convertComponent env (scanCells env.cells .null .null).2).map (fun fp =>
          some ⟨np, fp⟩)) := by
  simp only [scrapeCardPrices, hs, hl, hd, Bool.not_true, Bool.false_eq_true, if_false,
    Bool.not_false]
  cases h1 : convertComponent env (scanCells env.cells .null .null).1 with
  | error e => simp [h1, Bind.bind, Except.bind, throw, throwThe, MonadExceptOf.throw, Functor.map, Except.map, pure, Except.pure]
  | ok np =>
    cases h2 : convertComponent env (scanCells env.cells .null .null).2 with
    | error e => simp [h1, h2, Bind.bind, Except.bind, throw, throwThe, MonadExceptOf.throw, Functor.map, Except.map, pure, Except.pure]
    | ok fp => simp [h1, h2, Bind.bind, Except.bind, throw, throwThe, MonadExceptOf.throw, Functor.map, Except.map, pure, Except.pure]


theorem convertComponent_falsy (env : ScrapeEnv) (v : JSNum) (h : v.truthy = false) :
    convertComponent env v = .ok none := by
  simp [convertComponent, h]

theorem runVariantBlock_no_price (w : WriteEnv) (p : Product) (vopt : Option Variant)
    (remote : Product) : runVariantBlock w p vopt none remote = ([], remote) := by
  cases vopt <;> rfl

/-- C9: an extracted price that parses to exactly 0 or to NaN makes the
corresponding component of the `scrapeCardPrices` result null, and a null price
component can never produce a variant update. -/
theorem c9_zero_price_never_written (env : ScrapeEnv) (name : Str)
    (hs : env.searchRenderOk = true)
    (hl : linkFalsy (selectCandidateLink name env.cards) = false)
    (hd : env.detailRenderOk = true) :
    (((scanCells env.cells .null .null).1 = JSNum.nan ∨
        (∃ d, (scanCells env.cells .null .null).1 = JSNum.num d ∧ d.num = 0)) →
      ∀ f, convertComponent env (scanCells env.cells .null .null).2 = .ok f →
        scrapeCardPrices env name = .ok (some ⟨none, f⟩)) ∧
    (((scanCells env.cells .null .null).2 = JSNum.nan ∨
        (∃ d, (scanCells env.cells .null .null).2 = JSNum.num d ∧ d.num = 0)) →
      ∀ n, convertComponent env (scanCells env.cells .null .null).1 = .ok n →
        scrapeCardPrices env name = .ok (some ⟨n, none⟩)) ∧
    (∀ w p vopt remote, runVariantBlock w p vopt none remote = ([], remote)) := by
  have htr : ∀ v : JSNum, (v = JSNum.nan ∨ (∃ d, v = JSNum.num d ∧ d.num = 0)) →
      v.truthy = false := by
    rintro v (rfl | ⟨d, rfl, hd0⟩)
    · rfl
    · simp [JSNum.truthy, hd0]
  refine ⟨?_, ?_, fun w p vopt remote => runVariantBlock_no_price w p vopt remote⟩
  · intro h f hf
    rw [scrape_main_path env name hs hl hd, convertComponent_falsy env _ (htr _ h), hf]
    rfl
  · intro h n hn
    rw [scrape_main_path env name hs hl hd, convertComponent_falsy env _ (htr _ h), hn]
    rfl

/-- C9 witness: a detail page whose foil cell reads "$0.00" yields a null foil
price while the normal price converts, so only the normal component is usable. -/
theorem c9_zero_price_never_written_witness :
    scrapeCardPrices
      ⟨true, [⟨some (("Island").data), some (("L").data)⟩], true,
        [⟨some (("Normal:").data), none⟩, ⟨none, some (("$1.50").data)⟩,
         ⟨some (("Foil:").data), none⟩, ⟨none, some (("$0.00").data)⟩],
        fun d => .ok d⟩ (("Island card").data) =
      .ok (some ⟨some (("1.50").data), none⟩) := by
  have h := (c9_zero_price_never_written
    ⟨true, [⟨some (("Island").data), some (("L").data)⟩], true,
      [⟨some (("Normal:").data), none⟩, ⟨none, some (("$1.50").data)⟩,
       ⟨some (("Foil:").data), none⟩, ⟨none, some (("$0.00").data)⟩],
      fun d => .ok d⟩ (("Island card").data) rfl (by decide) rfl).2.1
    (Or.inr ⟨⟨0, 2⟩, by decide, rfl⟩) (some (("1.50").data)) (by rfl)
  simpa using h


/-- The write request a variant-update block would issue, as a function of the
found variant and the scraped price string. -/
def blockAttempt (p : Product) (vopt : Option Variant) (sopt : Option Str) :
    List (Str × Str × Str) :=
  match vopt, sopt with
  | some v, some s =>
    if s.isEmpty = false ∧
        jsStrictNe (parseFloatChars v.basePriceValue) (parseFloatChars s) = true
    then [(p.id, v.id, (parseFloatChars s).toFixed2)] else []
  | _, _ => []

theorem writeAttemptsOf_append (a b : List Event) :
    writeAttemptsOf (a ++ b) = writeAttemptsOf a ++ writeAttemptsOf b := by
  simp [writeAttemptsOf, List.filterMap_append]

theorem groupsOf_append (a b : List Event) :
    groupsOf (a ++ b) = groupsOf a ++ groupsOf b := by
  simp [groupsOf, List.filterMap_append]

theorem writeAttemptsOf_update (w : WriteEnv) (pid vid : Str) (price : JSNum) :
    writeAttemptsOf (updateProductVariant w pid vid price) = [(pid, vid, price.toFixed2)] := by
  by_cases h : w.ok pid vid = true <;> simp [updateProductVariant, h, writeAttemptsOf]

theorem groupsOf_update (w : WriteEnv) (pid vid : Str) (price : JSNum) :
    groupsOf (updateProductVariant w pid vid price) = [] := by
  by_cases h : w.ok pid vid = true <;> simp [updateProductVariant, h, groupsOf]

theorem rvb_attempts (w : WriteEnv) (p : Product) (vopt : Option Variant)
    (sopt : Option Str) (remote : Product) :
    writeAttemptsOf (runVariantBlock w p vopt sopt remote).1 = blockAttempt p vopt sopt := by
  match vopt, sopt with
  | none, none => rfl
  | none, some s => rfl
  | some v, none => rfl
  | some v, some s =>
    by_cases he : s.isEmpty
    · simp [runVariantBlock, blockAttempt, he, writeAttemptsOf]
    · by_cases hne : jsStrictNe (parseFloatChars v.basePriceValue) (parseFloatChars s) = true
      · simp [runVariantBlock, blockAttempt, he, hne, writeAttemptsOf_update]
      · simp [runVariantBlock, blockAttempt, he, hne, writeAttemptsOf]

theorem rvb_groups (w : WriteEnv) (p : Product) (vopt : Option Variant)
    (sopt : Option Str) (remote : Product) :
    groupsOf (runVariantBlock w p vopt sopt remote).1 = [] := by
  match vopt, sopt with
  | none, none => rfl
  | none, some s => rfl
  | some v, none => rfl
  | some v, some s =>
    by_cases he : s.isEmpty
    · simp [runVariantBlock, he, groupsOf]
    · by_cases hne : jsStrictNe (parseFloatChars v.basePriceValue) (parseFloatChars s) = true
      · simp [runVariantBlock, he, hne, groupsOf_update]
      · simp [runVariantBlock, he, hne, groupsOf]


theorem runProduct_error (env : RunEnv) (p : Product)
    (h : scrapeCardPrices (env.scrape p.name) p.name = .error ()) :
    runProduct env p = ([Event.group p.name], none) := by
  simp [runProduct, h]

theorem runProduct_unusable (env : RunEnv) (p : Product) (po : Option CardPrices)
    (h : scrapeCardPrices (env.scrape p.name) p.name = .ok po)
    (hu : pricesUnusable po = true) :
    runProduct env p = ([Event.group p.name, Event.warnNoPrices p.name], some p) := by
  simp [runProduct, h, hu]

theorem runProduct_usable (env : RunEnv) (p : Product) (pr : CardPrices)
    (h : scrapeCardPrices (env.scrape p.name) p.name = .ok (some pr))
    (hu : pricesUnusable (some pr) = false) :
    runProduct env p =
      (Event.group p.name ::
        ((runVariantBlock env.write p (findByCondition p nmCond)
            pr.normalPrice p).1 ++
          (runVariantBlock env.write p (findByCondition p nmFoilCond)
            pr.foilPrice
            (runVariantBlock env.write p (findByCondition p nmCond)
              pr.normalPrice p).2).1),
        some (runVariantBlock env.write p (findByCondition p nmFoilCond)
          pr.foilPrice
          (runVariantBlock env.write p (findByCondition p nmCond)
            pr.normalPrice p).2).2) := by
  simp [runProduct, h, hu]

theorem writeAttemptsOf_cons_group (n : Str) (evs : List Event) :
    writeAttemptsOf (Event.group n :: evs) = writeAttemptsOf evs := by
  simp [writeAttemptsOf]

theorem groupsOf_cons_group (n : Str) (evs : List Event) :
    groupsOf (Event.group n :: evs) = n :: groupsOf evs := by
  simp [groupsOf]

theorem blockAttempt_pid (p : Product) (vopt : Option Variant) (sopt : Option Str) :
    ∀ t ∈ blockAttempt p vopt sopt, t.1 = p.id := by
  intro t ht
  match vopt, sopt with
  | none, none => simp [blockAttempt] at ht
  | none, some s => simp [blockAttempt] at ht
  | some v, none => simp [blockAttempt] at ht
  | some v, some s =>
    simp only [blockAttempt] at ht
    split at ht
    · rw [List.mem_singleton] at ht
      subst ht
      rfl
    · simp at ht

theorem runProduct_attempts (env : RunEnv) (p : Product) :
    writeAttemptsOf (runProduct env p).1 =
      match scrapeCardPrices (env.scrape p.name) p.name with
      | .error _ => []
      | .ok po =>
        if pricesUnusable po = true then []
        else
          blockAttempt p (findByCondition p nmCond)
              ((po.getD ⟨none, none⟩).normalPrice) ++
            blockAttempt p (findByCondition p nmFoilCond)
              ((po.getD ⟨none, none⟩).foilPrice) := by
  cases h : scrapeCardPrices (env.scrape p.name) p.name with
  | error e =>
    cases e
    rw [runProduct_error env p h]
    simp [writeAttemptsOf]
  | ok po =>
    by_cases hu : pricesUnusable po = true
    · rw [runProduct_unusable env p po h hu]
      simp [writeAttemptsOf, hu]
    · cases po with
      | none => simp [pricesUnusable] at hu
      | some pr =>
        have hu' : pricesUnusable (some pr) = false := by simpa using hu
        rw [runProduct_usable env p pr h hu']
        simp [writeAttemptsOf_cons_group, writeAttemptsOf_append, rvb_attempts, hu']

theorem runProduct_groups (env : RunEnv) (p : Product) :
    groupsOf (runProduct env p).1 = [p.name] := by
  cases h : scrapeCardPrices (env.scrape p.name) p.name with
  | error e =>
    cases e
    rw [runProduct_error env p h]
    simp [groupsOf]
  | ok po =>
    by_cases hu : pricesUnusable po = true
    · rw [runProduct_unusable env p po h hu]
      simp [groupsOf]
    · cases po with
      | none => simp [pricesUnusable] at hu
      | some pr =>
        have hu' : pricesUnusable (some pr) = false := by simpa using hu
        rw [runProduct_usable env p pr h hu']
        simp [groupsOf_cons_group, groupsOf_append, rvb_groups]

theorem runProduct_isSome (env : RunEnv) (p : Product) :
    ((runProduct env p).2).isSome = exOk (scrapeCardPrices (env.scrape p.name) p.name) := by
  cases h : scrapeCardPrices (env.scrape p.name) p.name with
  | error e =>
    cases e
    rw [runProduct_error env p h]
    simp [exOk]
  | ok po =>
    by_cases hu : pricesUnusable po = true
    · rw [runProduct_unusable env p po h hu]
      simp [exOk]
    · cases po with
      | none => simp [pricesUnusable] at hu
      | some pr =>
        have hu' : pricesUnusable (some pr) = false := by simpa using hu
        rw [runProduct_usable env p pr h hu']
        simp [exOk]

theorem runProduct_attempts_pid (env : RunEnv) (p : Product) :
    ∀ t ∈ writeAttemptsOf (runProduct env p).1, t.1 = p.id := by
  intro t ht
  rw [runProduct_attempts] at ht
  cases h : scrapeCardPrices (env.scrape p.name) p.name with
  | error e =>
    rw [h] at ht
    simp at ht
  | ok po =>
    rw [h] at ht
    by_cases hu : pricesUnusable po = true
    · simp [hu] at ht
    · simp [hu] at ht
      rcases ht with hm | hm
      · exact blockAttempt_pid _ _ _ t hm
      · exact blockAttempt_pid _ _ _ t hm


/-- Remote state of a product after its loop iteration (unchanged if the
iteration threw). -/
def runProductOut (env : RunEnv) (p : Product) : Product := ((runProduct env p).2).getD p

theorem runLoop_all_ok (env : RunEnv) : ∀ products : List Product,
    (∀ p ∈ products, exOk (scrapeCardPrices (env.scrape p.name) p.name) = true) →
    runLoop env products =
      ((products.map (fun p => (runProduct env p).1)).flatten,
        products.map (runProductOut env), true) := by
  intro products
  induction products with
  | nil => intro _; rfl
  | cons p rest ih =>
    intro h
    have hp : exOk (scrapeCardPrices (env.scrape p.name) p.name) = true := h p (by simp)
    have hsome : ((runProduct env p).2).isSome := by rw [runProduct_isSome]; exact hp
    rcases ho : runProduct env p with ⟨evs, opt⟩
    cases opt with
    | none => rw [ho] at hsome; simp at hsome
    | some p2 =>
      have hrest := ih (fun q hq => h q (by simp [hq]))
      simp [runLoop, ho, hrest, runProductOut]

theorem groupsOf_cons_backup (ps : List Product) (evs : List Event) :
    groupsOf (Event.backup ps :: evs) = groupsOf evs := by
  simp [groupsOf]

theorem writeAttemptsOf_cons_backup (ps : List Product) (evs : List Event) :
    writeAttemptsOf (Event.backup ps :: evs) = writeAttemptsOf evs := by
  simp [writeAttemptsOf]

theorem groupsOf_flatten_blocks (env : RunEnv) : ∀ products : List Product,
    groupsOf ((products.map (fun p => (runProduct env p).1)).flatten) =
      products.map Product.name := by
  intro products
  induction products with
  | nil => rfl
  | cons p rest ih =>
    simp only [List.map_cons, List.flatten_cons, groupsOf_append, ih, runProduct_groups]
    rfl

/-- C1 (amended): a reference lookup that finds no match or yields no usable
price string only skips that product with a warning and the run finishes with
exit code 0 processing every product; but when a page wait times out or the
currency conversion throws, `scrapeCardPrices` rejects and the run aborts
(see the counterexample for the abort). -/
theorem c1_soft_failures_skip (env : RunEnv) (products : List Product)
    (h : ∀ p ∈ products, exOk (scrapeCardPrices (env.scrape p.name) p.name) = true) :
    (mainRun env (.ok products) true).exitCode = 0 ∧
    groupsOf (mainRun env (.ok products) true).events = products.map Product.name ∧
    (∀ p ∈ products, ∀ po, scrapeCardPrices (env.scrape p.name) p.name = .ok po →
      pricesUnusable po = true →
      Event.warnNoPrices p.name ∈ (mainRun env (.ok products) true).events) := by
  have hl := runLoop_all_ok env products h
  refine ⟨?_, ?_, ?_⟩
  · simp [mainRun, hl]
  · simp [mainRun, hl, groupsOf_cons_backup, groupsOf_flatten_blocks]
  · intro p hp po hpo hu
    have hblock := runProduct_unusable env p po hpo hu
    simp only [mainRun, hl]
    right
    exact List.mem_flatten.mpr
      ⟨(runProduct env p).1, List.mem_map_of_mem _ hp, by rw [hblock]; simp⟩

/-- Sample product "Alpha". -/
def prodA : Product := ⟨("pidA").data, ("Alpha").data, none⟩

/-- Sample product "Beta". -/
def prodB : Product := ⟨("pidB").data, ("Beta").data, none⟩

/-- Run environment whose search-results wait times out for product "Alpha"
and finds no candidates for any other product. -/
def cexC1Env : RunEnv :=
  ⟨fun nm => if nm = ("Alpha").data then ⟨false, [], true, [], fun d => .ok d⟩
    else ⟨true, [], true, [], fun d => .ok d⟩,
    ⟨fun _ _ => true, fun _ _ => []⟩⟩

/-- C1 counterexample: when the first product's page wait times out, the run
exits with code 1, the next product is never processed, and no per-product
warning is logged — the failure is not a soft skip. -/
theorem c1_counterexample :
    (mainRun cexC1Env (.ok [prodA, prodB]) true).exitCode = 1 ∧
    Event.group prodB.name ∉ (mainRun cexC1Env (.ok [prodA, prodB]) true).events ∧
    Event.warnNoPrices prodA.name ∉ (mainRun cexC1Env (.ok [prodA, prodB]) true).events := by
  decide

/-- Run environment in which every lookup renders but matches no candidate. -/
def softFailEnv : RunEnv :=
  ⟨fun _ => ⟨true, [], true, [], fun d => .ok d⟩, ⟨fun _ _ => true, fun _ _ => []⟩⟩

/-- C1 witness: two products whose lookups find no match are each skipped with
a warning and the run exits 0 having processed both. -/
theorem c1_soft_failures_skip_witness :
    (mainRun softFailEnv (.ok [prodA, prodB]) true).exitCode = 0 ∧
    groupsOf (mainRun softFailEnv (.ok [prodA, prodB]) true).events = [prodA.name, prodB.name] ∧
    Event.warnNoPrices prodA.name ∈ (mainRun softFailEnv (.ok [prodA, prodB]) true).events := by
  have h := c1_soft_failures_skip softFailEnv [prodA, prodB] (by decide)
  exact ⟨h.1, by simpa using h.2.1,
    h.2.2 prodA (by simp) none (by rfl) (by decide)⟩

/-- C3: the pre-update catalog snapshot is the first observable action of a run
that reaches the loop, hence precedes every write; a failing backup aborts the
run with exit code 1 before any write is attempted, leaving the remote catalog
untouched. -/
theorem c3_backup_precedes_writes (env : RunEnv) (products : List Product) :
    ((mainRun env (.ok products) false).exitCode = 1 ∧
      (mainRun env (.ok products) false).events = [] ∧
      writeAttemptsOf (mainRun env (.ok products) false).events = [] ∧
      (mainRun env (.ok products) false).finalCatalog = products) ∧
    (∃ tl, (mainRun env (.ok products) true).events = Event.backup products :: tl) := by
  constructor
  · refine ⟨rfl, rfl, rfl, rfl⟩
  · exact ⟨(runLoop env products).1, by simp [mainRun]⟩


theorem runProduct_write_indep (scr : Str → ScrapeEnv) (w w' : WriteEnv) (p : Product) :
    writeAttemptsOf (runProduct ⟨scr, w⟩ p).1 = writeAttemptsOf (runProduct ⟨scr, w'⟩ p).1 ∧
    groupsOf (runProduct ⟨scr, w⟩ p).1 = groupsOf (runProduct ⟨scr, w'⟩ p).1 ∧
    ((runProduct ⟨scr, w⟩ p).2).isSome = ((runProduct ⟨scr, w'⟩ p).2).isSome := by
  refine ⟨?_, ?_, ?_⟩
  · rw [runProduct_attempts, runProduct_attempts]
  · rw [runProduct_groups, runProduct_groups]
  · rw [runProduct_isSome, runProduct_isSome]

theorem runLoop_write_indep (scr : Str → ScrapeEnv) (w w' : WriteEnv) :
    ∀ products : List Product,
      writeAttemptsOf (runLoop ⟨scr, w⟩ products).1 =
        writeAttemptsOf (runLoop ⟨scr, w'⟩ products).1 ∧
      groupsOf (runLoop ⟨scr, w⟩ products).1 = groupsOf (runLoop ⟨scr, w'⟩ products).1 ∧
      (runLoop ⟨scr, w⟩ products).2.2 = (runLoop ⟨scr, w'⟩ products).2.2 := by
  intro products
  induction products with
  | nil => exact ⟨rfl, rfl, rfl⟩
  | cons p rest ih =>
    obtain ⟨ha, hg, hs⟩ := runProduct_write_indep scr w w' p
    rcases h1 : runProduct ⟨scr, w⟩ p with ⟨evs1, opt1⟩
    rcases h2 : runProduct ⟨scr, w'⟩ p with ⟨evs2, opt2⟩
    rw [h1, h2] at ha hg hs
    simp only at ha hg hs
    cases opt1 with
    | none =>
      cases opt2 with
      | some p2' => simp at hs
      | none => simp [runLoop, h1, h2, ha, hg]
    | some p2 =>
      cases opt2 with
      | none => simp at hs
      | some p2' =>
        simp [runLoop, h1, h2, writeAttemptsOf_append, groupsOf_append, ha, hg,
          ih.1, ih.2.1, ih.2.2]

/-- C7: a non-ok write response only logs the response body, without raising,
and the write responses have no influence on the run's control flow: the
attempted writes, the processed products and the exit code are the same under
any write behavior. -/
theorem c7_write_failures_do_not_block (env : RunEnv) (w' : WriteEnv)
    (products : List Product) (pid vid : Str) (price : JSNum)
    (hfail : w'.ok pid vid = false) :
    updateProductVariant w' pid vid price =
      [Event.writeAttempt pid vid price.toFixed2,
        Event.updateFailedLog vid (w'.errorText pid vid)] ∧
    (mainRun ⟨env.scrape, w'⟩ (.ok products) true).exitCode =
      (mainRun env (.ok products) true).exitCode ∧
    writeAttemptsOf (mainRun ⟨env.scrape, w'⟩ (.ok products) true).events =
      writeAttemptsOf (mainRun env (.ok products) true).events ∧
    groupsOf (mainRun ⟨env.scrape, w'⟩ (.ok products) true).events =
      groupsOf (mainRun env (.ok products) true).events := by
  have heta : (⟨env.scrape, env.write⟩ : RunEnv) = env := rfl
  have hind := runLoop_write_indep env.scrape w' env.write products
  rw [heta] at hind
  obtain ⟨ha, hg, hs⟩ := hind
  refine ⟨by simp [updateProductVariant, hfail], ?_, ?_, ?_⟩
  · simp [mainRun, hs]
  · simp [mainRun, writeAttemptsOf_cons_backup, ha]
  · simp [mainRun, groupsOf_cons_backup, hg]


theorem findByCondition_mem (p : Product) (cond : Str) (v : Variant)
    (h : findByCondition p cond = some v) :
    ∃ vs, p.variants = some vs ∧ v ∈ vs ∧ v.condition = some cond := by
  cases hv : p.variants with
  | none => simp [findByCondition, hv] at h
  | some vs =>
    simp only [findByCondition, hv] at h
    refine ⟨vs, rfl, List.mem_of_find?_eq_some h, ?_⟩
    have := List.find?_some h
    simpa using this

theorem findByCondition_distinct_ids (p : Product) (c1 c2 : Str) (v1 v2 : Variant)
    (hvid : ((p.variants.getD []).map Variant.id).Nodup)
    (h1 : findByCondition p c1 = some v1) (h2 : findByCondition p c2 = some v2)
    (hne : c1 ≠ c2) : v1.id ≠ v2.id := by
  obtain ⟨vs, hvs, hm1, hc1⟩ := findByCondition_mem p c1 v1 h1
  obtain ⟨vs2, hvs2, hm2, hc2⟩ := findByCondition_mem p c2 v2 h2
  rw [hvs] at hvs2
  injection hvs2 with he
  subst he
  have hvne : v1 ≠ v2 := by
    intro he
    rw [he, hc2] at hc1
    exact hne (by injection hc1 with h; exact h.symm)
  intro hid
  rw [hvs] at hvid
  simp only [Option.getD_some] at hvid
  exact hvne (List.inj_on_of_nodup_map hvid hm1 hm2 hid)

theorem applyRemoteUpdate_id (p : Product) (vid val : Str) :
    (applyRemoteUpdate p vid val).id = p.id := rfl

theorem applyRemoteUpdate_name (p : Product) (vid val : Str) :
    (applyRemoteUpdate p vid val).name = p.name := rfl

theorem findByCondition_apply (p : Product) (vid val cond : Str) :
    findByCondition (applyRemoteUpdate p vid val) cond =
      (findByCondition p cond).map
        (fun v => if v.id = vid then { v with basePriceValue := val } else v) := by
  cases hv : p.variants with
  | none => simp [findByCondition, applyRemoteUpdate, hv]
  | some vs =>
    simp only [findByCondition, applyRemoteUpdate, hv, Option.map_some']
    rw [List.find?_map]
    have hpred : ((fun v : Variant => v.condition == some cond) ∘ fun v =>
        if v.id = vid then { v with basePriceValue := val } else v) =
        fun v : Variant => v.condition == some cond := by
      funext v
      by_cases h : v.id = vid <;> simp [h, Function.comp]
    rw [hpred]

theorem rvb_out (w : WriteEnv) (p : Product) (vopt : Option Variant) (sopt : Option Str)
    (remote : Product) :
    (runVariantBlock w p vopt sopt remote).2 = remote ∨
    ∃ v s, vopt = some v ∧ sopt = some s ∧ s.isEmpty = false ∧
      jsStrictNe (parseFloatChars v.basePriceValue) (parseFloatChars s) = true ∧
      w.ok p.id v.id = true ∧
      (runVariantBlock w p vopt sopt remote).2 =
        applyRemoteUpdate remote v.id (parseFloatChars s).toFixed2 := by
  match vopt, sopt with
  | none, none => exact Or.inl rfl
  | none, some s => exact Or.inl rfl
  | some v, none => exact Or.inl rfl
  | some v, some s =>
    by_cases he : s.isEmpty = true
    · exact Or.inl (by simp [runVariantBlock, he])
    · by_cases hne : jsStrictNe (parseFloatChars v.basePriceValue) (parseFloatChars s) = true
      · by_cases hok : w.ok p.id v.id = true
        · exact Or.inr ⟨v, s, rfl, rfl, by simpa using he, hne, hok,
            by simp [runVariantBlock, he, hne, hok]⟩
        · exact Or.inl (by simp [runVariantBlock, he, hne, hok])
      · exact Or.inl (by simp [runVariantBlock, he, hne])


theorem blockAttempt_none_price (p : Product) (vopt : Option Variant) :
    blockAttempt p vopt none = [] := by
  cases vopt <;> rfl

theorem blockAttempt_mem (p : Product) (vopt : Option Variant) (sopt : Option Str)
    (t : Str × Str × Str) (ht : t ∈ blockAttempt p vopt sopt) :
    ∃ v s, vopt = some v ∧ sopt = some s ∧
      t = (p.id, v.id, (parseFloatChars s).toFixed2) := by
  match vopt, sopt with
  | none, none => simp [blockAttempt] at ht
  | none, some s => simp [blockAttempt] at ht
  | some v, none => simp [blockAttempt] at ht
  | some v, some s =>
    simp only [blockAttempt] at ht
    split at ht
    · rw [List.mem_singleton] at ht
      exact ⟨v, s, rfl, rfl, ht⟩
    · simp at ht

/-- C8: when only one of the two scraped price components is usable, every
write of the product's iteration targets the variant of the available
component, and the other condition's variant is left entirely unchanged. -/
theorem c8_partial_price_frame (env : RunEnv) (p : Product) (pr : CardPrices)
    (hscrape : scrapeCardPrices (env.scrape p.name) p.name = .ok (some pr))
    (hvid : ((p.variants.getD []).map Variant.id).Nodup) :
    (pr.foilPrice = none →
      (∀ t ∈ writeAttemptsOf (runProduct env p).1,
        ∃ v, findByCondition p nmCond = some v ∧ t.2.1 = v.id) ∧
      (∀ fv, findByCondition p nmFoilCond = some fv →
        (∀ t ∈ writeAttemptsOf (runProduct env p).1, t.2.1 ≠ fv.id) ∧
        (∀ p2, (runProduct env p).2 = some p2 →
          findByCondition p2 nmFoilCond = some fv))) ∧
    (pr.normalPrice = none →
      (∀ t ∈ writeAttemptsOf (runProduct env p).1,
        ∃ v, findByCondition p nmFoilCond = some v ∧ t.2.1 = v.id) ∧
      (∀ nv, findByCondition p nmCond = some nv →
        (∀ t ∈ writeAttemptsOf (runProduct env p).1, t.2.1 ≠ nv.id) ∧
        (∀ p2, (runProduct env p).2 = some p2 →
          findByCondition p2 nmCond = some nv))) := by
  by_cases hu : pricesUnusable (some pr) = true
  · have hrp := runProduct_unusable env p (some pr) hscrape hu
    have hatt : writeAttemptsOf (runProduct env p).1 = [] := by
      rw [hrp]
      simp [writeAttemptsOf]
    have hout : ∀ p2, (runProduct env p).2 = some p2 → p2 = p := by
      intro p2 h2
      rw [hrp] at h2
      simpa using h2.symm
    constructor
    · intro _
      refine ⟨by simp [hatt], fun fv hfv => ⟨by simp [hatt], fun p2 h2 => ?_⟩⟩
      rw [hout p2 h2]
      exact hfv
    · intro _
      refine ⟨by simp [hatt], fun nv hnv => ⟨by simp [hatt], fun p2 h2 => ?_⟩⟩
      rw [hout p2 h2]
      exact hnv
  · have hu' : pricesUnusable (some pr) = false := by simpa using hu
    have hrp := runProduct_usable env p pr hscrape hu'
    have hcne : nmCond ≠ nmFoilCond := by decide
    constructor
    · -- foil component is null
      intro hfoil
      have hatt : writeAttemptsOf (runProduct env p).1 =
          blockAttempt p (findByCondition p nmCond) pr.normalPrice := by
        rw [runProduct_attempts, hscrape]
        simp [hu', hfoil, blockAttempt_none_price]
      have hmem : ∀ t ∈ writeAttemptsOf (runProduct env p).1,
          ∃ v, findByCondition p nmCond = some v ∧ t.2.1 = v.id := by
        intro t ht
        rw [hatt] at ht
        obtain ⟨v, s, hv, hs, hteq⟩ := blockAttempt_mem _ _ _ t ht
        exact ⟨v, hv, by rw [hteq]⟩
      refine ⟨hmem, fun fv hfv => ⟨?_, ?_⟩⟩
      · intro t ht
        obtain ⟨v, hv, hid⟩ := hmem t ht
        rw [hid]
        exact findByCondition_distinct_ids p _ _ v fv hvid hv hfv hcne
      · intro p2 h2
        rw [hrp] at h2
        simp only at h2
        -- the foil block runs with a null price string, leaving the remote state alone
        rw [hfoil, runVariantBlock_no_price] at h2
        rcases rvb_out env.write p (findByCondition p nmCond) pr.normalPrice p
          with hsame | ⟨v, s, hv, hs, _, _, _, happ⟩
        · rw [hsame] at h2
          rw [← Option.some_inj.mp h2]
          exact hfv
        · rw [happ] at h2
          rw [← Option.some_inj.mp h2, findByCondition_apply, hfv]
          have : fv.id ≠ v.id :=
            findByCondition_distinct_ids p _ _ fv v hvid hfv hv (Ne.symm hcne)
          simp [this]
    · -- normal component is null
      intro hnorm
      have hatt : writeAttemptsOf (runProduct env p).1 =
          blockAttempt p (findByCondition p nmFoilCond) pr.foilPrice := by
        rw [runProduct_attempts, hscrape]
        simp [hu', hnorm, blockAttempt_none_price]
      have hmem : ∀ t ∈ writeAttemptsOf (runProduct env p).1,
          ∃ v, findByCondition p nmFoilCond = some v ∧ t.2.1 = v.id := by
        intro t ht
        rw [hatt] at ht
        obtain ⟨v, s, hv, hs, hteq⟩ := blockAttempt_mem _ _ _ t ht
        exact ⟨v, hv, by rw [hteq]⟩
      refine ⟨hmem, fun nv hnv => ⟨?_, ?_⟩⟩
      · intro t ht
        obtain ⟨v, hv, hid⟩ := hmem t ht
        rw [hid]
        exact findByCondition_distinct_ids p _ _ v nv hvid hv hnv (Ne.symm hcne)
      · intro p2 h2
        rw [hrp] at h2
        simp only at h2
        rw [hnorm, runVariantBlock_no_price] at h2
        rcases rvb_out env.write p (findByCondition p nmFoilCond) pr.foilPrice p
          with hsame | ⟨v, s, hv, hs, _, _, _, happ⟩
        · rw [hsame] at h2
          rw [← Option.some_inj.mp h2]
          exact hnv
        · rw [happ] at h2
          rw [← Option.some_inj.mp h2, findByCondition_apply, hnv]
          have : nv.id ≠ v.id :=
            findByCondition_distinct_ids p _ _ nv v hvid hnv hv hcne
          simp [this]


theorem convertComponent_ok (env : ScrapeEnv) (v : JSNum) (res : Option Str)
    (h : convertComponent env v = .ok res) :
    ∀ s, res = some s → ∃ r, s = toFixed2Chars r := by
  intro s hs
  subst hs
  cases v with
  | null => simp [convertComponent, JSNum.truthy] at h
  | nan => simp [convertComponent, JSNum.truthy] at h
  | num d =>
    by_cases hz : (d.num == 0) = true
    · simp [convertComponent, JSNum.truthy, hz] at h
    · simp only [convertComponent, JSNum.truthy, hz, Bool.not_false, if_true, if_pos] at h
      cases hc : env.convert d with
      | error e => rw [hc] at h; simp [Except.map] at h
      | ok r =>
        rw [hc] at h
        simp only [Except.map] at h
        injection h with h
        injection h with h
        exact ⟨r, h.symm⟩

theorem scrape_ok_some (env : ScrapeEnv) (name : Str) (pr : CardPrices)
    (h : scrapeCardPrices env name = .ok (some pr)) :
    (∀ s, pr.normalPrice = some s → ∃ r, s = toFixed2Chars r) ∧
    (∀ s, pr.foilPrice = some s → ∃ r, s = toFixed2Chars r) := by
  cases hs : env.searchRenderOk with
  | false => rw [scrape_searchFail env name hs] at h; cases h
  | true =>
    cases hl : linkFalsy (selectCandidateLink name env.cards) with
    | true =>
      rw [scrape_noMatch env name hs hl] at h
      injection h with h
      cases h
    | false =>
      cases hd : env.detailRenderOk with
      | false => rw [scrape_detailFail env name hs hl hd] at h; cases h
      | true =>
        rw [scrape_main_path env name hs hl hd] at h
        cases h1 : convertComponent env (scanCells env.cells .null .null).1 with
        | error e => rw [h1] at h; simp [Except.bind] at h
        | ok np =>
          cases h2 : convertComponent env (scanCells env.cells .null .null).2 with
          | error e => rw [h1, h2] at h; simp [Except.bind, Except.map] at h
          | ok fp =>
            rw [h1, h2] at h
            simp only [Except.bind, Except.map] at h
            injection h with h
            injection h with h
            subst h
            constructor
            · intro s hsome
              exact convertComponent_ok env _ np h1 s hsome
            · intro s hsome
              exact convertComponent_ok env _ fp h2 s hsome

theorem second_compare (r : Dec) :
    jsStrictNe (parseFloatChars ((parseFloatChars (toFixed2Chars r)).toFixed2))
      (parseFloatChars (toFixed2Chars r)) = false := by
  rw [parse_toFixed2]
  show jsStrictNe (parseFloatChars (toFixed2Chars ⟨round2Int r, 2⟩)) _ = false
  rw [parse_stored_value]
  exact jsStrictNe_self _

theorem rvb_out_exact (w : WriteEnv) (p : Product) (vopt : Option Variant) (sopt : Option Str)
    (remote : Product) (hw : ∀ pid vid, w.ok pid vid = true) :
    (runVariantBlock w p vopt sopt remote).2 =
      match vopt, sopt with
      | some v, some s =>
        if s.isEmpty = false ∧
            jsStrictNe (parseFloatChars v.basePriceValue) (parseFloatChars s) = true
        then applyRemoteUpdate remote v.id (parseFloatChars s).toFixed2
        else remote
      | _, _ => remote := by
  match vopt, sopt with
  | none, none => rfl
  | none, some s => rfl
  | some v, none => rfl
  | some v, some s =>
    by_cases he : s.isEmpty = true
    · simp [runVariantBlock, he]
    · by_cases hne : jsStrictNe (parseFloatChars v.basePriceValue) (parseFloatChars s) = true
      · simp [runVariantBlock, he, hne, hw p.id v.id]
      · simp [runVariantBlock, he, hne]

/-- The remote state of one variant after its update block ran with the given
scraped price string (all writes accepted). -/
def updatedVariant (v : Variant) (sopt : Option Str) : Variant :=
  match sopt with
  | some s =>
    if s.isEmpty = false ∧
        jsStrictNe (parseFloatChars v.basePriceValue) (parseFloatChars s) = true
    then { v with basePriceValue := (parseFloatChars s).toFixed2 } else v
  | none => v

theorem updatedVariant_id (v : Variant) (sopt : Option Str) :
    (updatedVariant v sopt).id = v.id := by
  match sopt with
  | none => rfl
  | some s =>
    simp only [updatedVariant]
    split
    · rfl
    · rfl

theorem rvb_idem_block (w : WriteEnv) (p2 : Product)
    (vopt : Option Variant) (sopt : Option Str)
    (hs : ∀ s, sopt = some s → ∃ r, s = toFixed2Chars r)
    (vopt2 : Option Variant)
    (hrel : vopt2 = vopt.map (fun v => updatedVariant v sopt)) :
    runVariantBlock w p2 vopt2 sopt p2 = ([], p2) := by
  cases vopt with
  | none =>
    subst hrel
    cases sopt with
    | none => rfl
    | some s => rfl
  | some v =>
    subst hrel
    cases sopt with
    | none => rfl
    | some s =>
      obtain ⟨r, hr⟩ := hs s rfl
      have hemp : s.isEmpty = false := by rw [hr]; exact toFixed2Chars_isEmpty r
      by_cases hne : jsStrictNe (parseFloatChars v.basePriceValue) (parseFloatChars s) = true
      · -- run 1 wrote: the stored value now round-trips to the same number
        have hv2 : updatedVariant v (some s) =
            { v with basePriceValue := (parseFloatChars s).toFixed2 } := by
          simp [updatedVariant, hemp, hne]
        have hcmp : jsStrictNe
            (parseFloatChars ((parseFloatChars s).toFixed2)) (parseFloatChars s) = false := by
          rw [hr]
          exact second_compare r
        simp [runVariantBlock, hv2, hemp, hcmp]
      · -- run 1 left the value alone, so the comparison is unchanged
        have hv2 : updatedVariant v (some s) = v := by
          simp [updatedVariant, hne]
        simp [runVariantBlock, hv2, hemp, hne]


theorem updatedVariant_none (v : Variant) : updatedVariant v none = v := rfl

theorem updatedVariant_of_cond (v : Variant) (s : Str)
    (hc : s.isEmpty = false ∧
      jsStrictNe (parseFloatChars v.basePriceValue) (parseFloatChars s) = true) :
    updatedVariant v (some s) = { v with basePriceValue := (parseFloatChars s).toFixed2 } := by
  simp only [updatedVariant]
  rw [if_pos hc]

theorem updatedVariant_of_not_cond (v : Variant) (s : Str)
    (hc : ¬(s.isEmpty = false ∧
      jsStrictNe (parseFloatChars v.basePriceValue) (parseFloatChars s) = true)) :
    updatedVariant v (some s) = v := by
  simp only [updatedVariant]
  rw [if_neg hc]

theorem rvb_none_variant (w : WriteEnv) (p : Product) (sopt : Option Str) (remote : Product) :
    runVariantBlock w p none sopt remote = ([], remote) := by
  cases sopt <;> rfl

theorem rvb_preserves (w : WriteEnv) (p : Product) (vopt : Option Variant) (sopt : Option Str)
    (remote : Product) :
    ((runVariantBlock w p vopt sopt remote).2).name = remote.name ∧
    ((runVariantBlock w p vopt sopt remote).2).id = remote.id := by
  rcases rvb_out w p vopt sopt remote with h | ⟨v, s, _, _, _, _, _, h⟩
  · rw [h]
    exact ⟨rfl, rfl⟩
  · rw [h]
    exact ⟨applyRemoteUpdate_name _ _ _, applyRemoteUpdate_id _ _ _⟩

theorem block_find_self (w : WriteEnv) (p : Product) (cond : Str) (sopt : Option Str)
    (remote : Product) (hw : ∀ pid vid, w.ok pid vid = true)
    (hfr : findByCondition remote cond = findByCondition p cond) :
    findByCondition ((runVariantBlock w p (findByCondition p cond) sopt remote).2) cond =
      (findByCondition p cond).map (fun v => updatedVariant v sopt) := by
  cases hv : findByCondition p cond with
  | none =>
    rw [rvb_none_variant]
    simp [hfr, hv]
  | some v =>
    cases sopt with
    | none =>
      rw [runVariantBlock_no_price]
      simp [hfr, hv, updatedVariant_none]
    | some str =>
      have hx := rvb_out_exact w p (findByCondition p cond) (some str) remote hw
      rw [hv] at hx
      simp only at hx
      by_cases hc : str.isEmpty = false ∧
          jsStrictNe (parseFloatChars v.basePriceValue) (parseFloatChars str) = true
      · rw [if_pos hc] at hx
        rw [hx, findByCondition_apply, hfr, hv]
        simp [updatedVariant_of_cond v str hc]
      · rw [if_neg hc] at hx
        rw [hx, hfr, hv]
        simp [updatedVariant_of_not_cond v str hc]

theorem block_find_other (w : WriteEnv) (p : Product) (cond' : Str) (vopt : Option Variant)
    (sopt : Option Str) (remote : Product)
    (hne : ∀ v u, vopt = some v → findByCondition remote cond' = some u → v.id ≠ u.id) :
    findByCondition ((runVariantBlock w p vopt sopt remote).2) cond' =
      findByCondition remote cond' := by
  rcases rvb_out w p vopt sopt remote with h | ⟨v, s, hv, hs, _, _, _, h⟩
  · rw [h]
  · rw [h, findByCondition_apply]
    cases hu : findByCondition remote cond' with
    | none => rfl
    | some u =>
      have hid : u.id ≠ v.id := (hne v u hv hu).symm
      simp [hid]


theorem runProduct_out_found (env : RunEnv) (p : Product) (pr : CardPrices)
    (hscrape : scrapeCardPrices (env.scrape p.name) p.name = .ok (some pr))
    (hu' : pricesUnusable (some pr) = false)
    (hw : ∀ pid vid, env.write.ok pid vid = true)
    (hvid : ((p.variants.getD []).map Variant.id).Nodup)
    (p2 : Product) (hp2 : (runProduct env p).2 = some p2) :
    p2.name = p.name ∧ p2.id = p.id ∧
    findByCondition p2 nmCond =
      (findByCondition p nmCond).map (fun v => updatedVariant v pr.normalPrice) ∧
    findByCondition p2 nmFoilCond =
      (findByCondition p nmFoilCond).map (fun v => updatedVariant v pr.foilPrice) := by
  have hcne : nmCond ≠ nmFoilCond := by decide
  rw [runProduct_usable env p pr hscrape hu'] at hp2
  simp only at hp2
  rw [← Option.some_inj.mp hp2]
  have hA1 := block_find_self env.write p nmCond pr.normalPrice p hw rfl
  have hA2 := block_find_other env.write p nmFoilCond (findByCondition p nmCond)
    pr.normalPrice p
    (fun v u hv hu => findByCondition_distinct_ids p nmCond nmFoilCond v u hvid hv hu hcne)
  have hB1 := block_find_self env.write p nmFoilCond pr.foilPrice
    (runVariantBlock env.write p (findByCondition p nmCond) pr.normalPrice p).2 hw hA2
  have hB2 := block_find_other env.write p nmCond (findByCondition p nmFoilCond)
    pr.foilPrice (runVariantBlock env.write p (findByCondition p nmCond) pr.normalPrice p).2
    (fun fv u hfv hu => by
      rw [hA1] at hu
      cases hnm : findByCondition p nmCond with
      | none =>
        rw [hnm] at hu
        exact absurd hu (by simp)
      | some v =>
        rw [hnm] at hu
        simp only [Option.map_some'] at hu
        have hud := Option.some_inj.mp hu
        have hui : u.id = v.id := by rw [← hud]; exact updatedVariant_id v _
        rw [hui]
        exact findByCondition_distinct_ids p nmFoilCond nmCond fv v hvid hfv hnm
          (Ne.symm hcne))
  refine ⟨?_, ?_, ?_, ?_⟩
  · rw [(rvb_preserves env.write p (findByCondition p nmFoilCond) pr.foilPrice _).1,
      (rvb_preserves env.write p (findByCondition p nmCond) pr.normalPrice p).1]
  · rw [(rvb_preserves env.write p (findByCondition p nmFoilCond) pr.foilPrice _).2,
      (rvb_preserves env.write p (findByCondition p nmCond) pr.normalPrice p).2]
  · rw [hB2, hA1]
  · exact hB1

theorem runProduct_idem (env : RunEnv) (p : Product)
    (hw : ∀ pid vid, env.write.ok pid vid = true)
    (hvid : ((p.variants.getD []).map Variant.id).Nodup)
    (p2 : Product) (hp2 : (runProduct env p).2 = some p2) :
    p2.name = p.name ∧ (runProduct env p2).2 = some p2 ∧
      writeAttemptsOf (runProduct env p2).1 = [] := by
  cases hs : scrapeCardPrices (env.scrape p.name) p.name with
  | error e =>
    cases e
    rw [runProduct_error env p hs] at hp2
    simp at hp2
  | ok po =>
    by_cases hu : pricesUnusable po = true
    · rw [runProduct_unusable env p po hs hu] at hp2
      simp only at hp2
      have hpp : p = p2 := Option.some_inj.mp hp2
      subst hpp
      refine ⟨rfl, ?_, ?_⟩
      · rw [runProduct_unusable env p po hs hu]
      · rw [runProduct_unusable env p po hs hu]
        simp [writeAttemptsOf]
    · cases po with
      | none => simp [pricesUnusable] at hu
      | some pr =>
        have hu' : pricesUnusable (some pr) = false := by simpa using hu
        obtain ⟨hname, hid, hnm2, hnf2⟩ :=
          runProduct_out_found env p pr hs hu' hw hvid p2 hp2
        have hs2 : scrapeCardPrices (env.scrape p2.name) p2.name = .ok (some pr) := by
          rw [hname]
          exact hs
        obtain ⟨hnorm_str, hfoil_str⟩ := scrape_ok_some (env.scrape p.name) p.name pr hs
        have hblockN := rvb_idem_block env.write p2 (findByCondition p nmCond)
          pr.normalPrice hnorm_str (findByCondition p2 nmCond) hnm2
        have hblockF := rvb_idem_block env.write p2 (findByCondition p nmFoilCond)
          pr.foilPrice hfoil_str (findByCondition p2 nmFoilCond) hnf2
        have hrp2 := runProduct_usable env p2 pr hs2 hu'
        refine ⟨hname, ?_, ?_⟩
        · rw [hrp2]
          simp [hblockN, hblockF]
        · rw [hrp2]
          simp [hblockN, hblockF, writeAttemptsOf]


theorem writeAttemptsOf_flatten (evss : List (List Event)) :
    writeAttemptsOf evss.flatten = (evss.map writeAttemptsOf).flatten := by
  induction evss with
  | nil => rfl
  | cons e rest ih => simp [writeAttemptsOf_append, ih]

theorem option_some_getD {α : Type} (o : Option α) (d : α) (h : o.isSome = true) :
    o = some (o.getD d) := by
  cases o with
  | none => cases h
  | some x => rfl

theorem mainRun_events_eq (env : RunEnv) (products : List Product) :
    (mainRun env (.ok products) true).events =
      Event.backup products :: (runLoop env products).1 := rfl

theorem mainRun_exit_eq (env : RunEnv) (products : List Product) :
    (mainRun env (.ok products) true).exitCode =
      if (runLoop env products).2.2 = true then 0 else 1 := rfl

theorem mainRun_final_eq (env : RunEnv) (products : List Product) :
    (mainRun env (.ok products) true).finalCatalog = (runLoop env products).2.1 := rfl

theorem mainRun_attempts (env : RunEnv) (products : List Product)
    (hscr : ∀ p ∈ products, exOk (scrapeCardPrices (env.scrape p.name) p.name) = true) :
    writeAttemptsOf (mainRun env (.ok products) true).events =
      ((products.map (fun p => writeAttemptsOf (runProduct env p).1))).flatten := by
  have hl := runLoop_all_ok env products hscr
  rw [mainRun_events_eq, writeAttemptsOf_cons_backup, hl]
  show writeAttemptsOf ((products.map (fun p => (runProduct env p).1))).flatten = _
  rw [writeAttemptsOf_flatten, List.map_map]
  rfl

theorem mainRun_finalCatalog (env : RunEnv) (products : List Product)
    (hscr : ∀ p ∈ products, exOk (scrapeCardPrices (env.scrape p.name) p.name) = true) :
    (mainRun env (.ok products) true).finalCatalog = products.map (runProductOut env) := by
  have hl := runLoop_all_ok env products hscr
  rw [mainRun_final_eq, hl]

theorem mainRun_attempts_mem (env : RunEnv) (products : List Product)
    (hscr : ∀ p ∈ products, exOk (scrapeCardPrices (env.scrape p.name) p.name) = true)
    (t : Str × Str × Str) :
    t ∈ writeAttemptsOf (mainRun env (.ok products) true).events ↔
      ∃ p ∈ products, t ∈ writeAttemptsOf (runProduct env p).1 := by
  rw [mainRun_attempts env products hscr, List.mem_flatten]
  constructor
  · rintro ⟨l, hl, ht⟩
    obtain ⟨p, hp, rfl⟩ := List.mem_map.mp hl
    exact ⟨p, hp, ht⟩
  · rintro ⟨p, hp, ht⟩
    exact ⟨writeAttemptsOf (runProduct env p).1, List.mem_map_of_mem _ hp, ht⟩

theorem blockAttempt_mem' (p : Product) (vopt : Option Variant) (sopt : Option Str)
    (t : Str × Str × Str) (ht : t ∈ blockAttempt p vopt sopt) :
    ∃ v s, vopt = some v ∧ sopt = some s ∧ s.isEmpty = false ∧
      jsStrictNe (parseFloatChars v.basePriceValue) (parseFloatChars s) = true ∧
      t = (p.id, v.id, (parseFloatChars s).toFixed2) := by
  match vopt, sopt with
  | none, none => simp [blockAttempt] at ht
  | none, some s => simp [blockAttempt] at ht
  | some v, none => simp [blockAttempt] at ht
  | some v, some s =>
    simp only [blockAttempt] at ht
    split at ht
    · rw [List.mem_singleton] at ht
      rename_i hcond
      exact ⟨v, s, rfl, rfl, hcond.1, hcond.2, ht⟩
    · simp at ht

theorem countP_attempt_pair_le_one (pid vid : Str) (t1 t2 : Str × Str × Str)
    (hne : t1.2.1 ≠ t2.2.1) :
    List.countP (fun t => t.1 == pid && t.2.1 == vid) [t1, t2] ≤ 1 := by
  by_cases h1 : (t1.1 == pid && t1.2.1 == vid) = true
  · by_cases h2 : (t2.1 == pid && t2.2.1 == vid) = true
    · exfalso
      apply hne
      simp only [Bool.and_eq_true, beq_iff_eq] at h1 h2
      rw [h1.2, h2.2]
    · simp [List.countP_cons, h1, h2]
  · by_cases h2 : (t2.1 == pid && t2.2.1 == vid) = true
    · simp [List.countP_cons, h1, h2]
    · simp [List.countP_cons, h1, h2]

theorem runProduct_count_le_one (env : RunEnv) (p : Product)
    (hvid : ((p.variants.getD []).map Variant.id).Nodup) (pid vid : Str) :
    (writeAttemptsOf (runProduct env p).1).countP
      (fun t => t.1 == pid && t.2.1 == vid) ≤ 1 := by
  rw [runProduct_attempts]
  cases hs : scrapeCardPrices (env.scrape p.name) p.name with
  | error e => simp
  | ok po =>
    by_cases hu : pricesUnusable po = true
    · simp [hu]
    · simp only [hu, if_false, Bool.false_eq_true]
      rcases hbn : blockAttempt p (findByCondition p nmCond)
          ((po.getD ⟨none, none⟩).normalPrice) with _ | ⟨t1, bn⟩
      · rcases hbf : blockAttempt p (findByCondition p nmFoilCond)
            ((po.getD ⟨none, none⟩).foilPrice) with _ | ⟨t2, bf⟩
        · simp
        · obtain ⟨v2, s2, hv2, hs2, _, _, ht2⟩ :=
            blockAttempt_mem' p _ _ t2 (by rw [hbf]; simp)
          have hbf' : bf = [] := by
            have := hbf
            simp only [blockAttempt, hv2, hs2] at this
            split at this
            · injection this with _ h
              exact h.symm
            · cases this
          subst hbf'
          simp [List.countP_cons]
          split <;> omega
      · obtain ⟨v1, s1, hv1, hs1, _, _, ht1⟩ :=
          blockAttempt_mem' p _ _ t1 (by rw [hbn]; simp)
        have hbn' : bn = [] := by
          have := hbn
          simp only [blockAttempt, hv1, hs1] at this
          split at this
          · injection this with _ h
            exact h.symm
          · cases this
        subst hbn'
        rcases hbf : blockAttempt p (findByCondition p nmFoilCond)
            ((po.getD ⟨none, none⟩).foilPrice) with _ | ⟨t2, bf⟩
        · simp [List.countP_cons]
          split <;> omega
        · obtain ⟨v2, s2, hv2, hs2, _, _, ht2⟩ :=
            blockAttempt_mem' p _ _ t2 (by rw [hbf]; simp)
          have hbf' : bf = [] := by
            have := hbf
            simp only [blockAttempt, hv2, hs2] at this
            split at this
            · injection this with _ h
              exact h.symm
            · cases this
          subst hbf'
          have hcne : nmCond ≠ nmFoilCond := by decide
          have hidne : v1.id ≠ v2.id :=
            findByCondition_distinct_ids p nmCond nmFoilCond v1 v2 hvid hv1 hv2 hcne
          have htne : t1.2.1 ≠ t2.2.1 := by
            rw [ht1, ht2]
            simpa using hidne
          simpa using countP_attempt_pair_le_one pid vid t1 t2 htne


theorem runProduct_count_zero (env : RunEnv) (q : Product) (pid vid : Str)
    (hne : q.id ≠ pid) :
    (writeAttemptsOf (runProduct env q).1).countP
      (fun t => t.1 == pid && t.2.1 == vid) = 0 := by
  rw [List.countP_eq_zero]
  intro t ht
  have hq := runProduct_attempts_pid env q t ht
  simp [hq, hne]

theorem flatten_count_le_one (env : RunEnv) : ∀ products : List Product,
    (products.map Product.id).Nodup →
    (∀ p ∈ products, ((p.variants.getD []).map Variant.id).Nodup) →
    ∀ pid vid : Str,
      ((products.map (fun p => writeAttemptsOf (runProduct env p).1)).flatten).countP
        (fun t => t.1 == pid && t.2.1 == vid) ≤ 1 := by
  intro products
  induction products with
  | nil =>
    intro _ _ pid vid
    simp
  | cons p rest ih =>
    intro hpid hvid pid vid
    simp only [List.map_cons, List.flatten_cons, List.countP_append]
    simp only [List.map_cons, List.nodup_cons] at hpid
    by_cases hp : p.id = pid
    · have h1 := runProduct_count_le_one env p (hvid p (by simp)) pid vid
      have h2 : ((rest.map (fun q => writeAttemptsOf (runProduct env q).1)).flatten).countP
          (fun t => t.1 == pid && t.2.1 == vid) = 0 := by
        rw [List.countP_eq_zero]
        intro t ht
        obtain ⟨l, hl, htl⟩ := List.mem_flatten.mp ht
        obtain ⟨q, hq, rfl⟩ := List.mem_map.mp hl
        have hqid := runProduct_attempts_pid env q t htl
        have hqne : q.id ≠ pid := by
          rw [← hp]
          intro he
          exact hpid.1 (he ▸ List.mem_map_of_mem Product.id hq)
        simp [hqid, hqne]
      omega
    · have h1 := runProduct_count_zero env p pid vid hp
      have h2 := ih hpid.2 (fun q hq => hvid q (by simp [hq])) pid vid
      omega

theorem flatten_nil_of_all_nil {α : Type} :
    ∀ L : List (List α), (∀ l ∈ L, l = []) → L.flatten = [] := by
  intro L
  induction L with
  | nil => intro _; rfl
  | cons x rest ih =>
    intro h
    rw [List.flatten_cons, h x (by simp), ih (fun l hl => h l (by simp [hl]))]
    rfl

theorem mainRun_attempt_localize (env : RunEnv) (products : List Product)
    (hscr : ∀ p ∈ products, exOk (scrapeCardPrices (env.scrape p.name) p.name) = true)
    (hpid : (products.map Product.id).Nodup)
    (p : Product) (hp : p ∈ products) (t : Str × Str × Str) (htp : t.1 = p.id) :
    (t ∈ writeAttemptsOf (mainRun env (.ok products) true).events ↔
      t ∈ writeAttemptsOf (runProduct env p).1) := by
  rw [mainRun_attempts_mem env products hscr]
  constructor
  · rintro ⟨q, hq, htq⟩
    have h1 : t.1 = q.id := runProduct_attempts_pid env q t htq
    have hqp : q = p := List.inj_on_of_nodup_map hpid hq hp (by rw [← h1, htp])
    rwa [hqp] at htq
  · intro ht
    exact ⟨p, hp, ht⟩

theorem runProduct_write_iff_nm (env : RunEnv) (p : Product) (pr : CardPrices)
    (hpr : scrapeCardPrices (env.scrape p.name) p.name = .ok (some pr))
    (hvidp : ((p.variants.getD []).map Variant.id).Nodup) (v : Variant) (s : Str)
    (hv : findByCondition p nmCond = some v) (hsval : pr.normalPrice = some s)
    (hsne : s.isEmpty = false) :
    (∃ val, (p.id, v.id, val) ∈ writeAttemptsOf (runProduct env p).1) ↔
      jsStrictNe (parseFloatChars v.basePriceValue) (parseFloatChars s) = true := by
  have hu' : pricesUnusable (some pr) = false := by
    simp [pricesUnusable, strFalsy, hsval, hsne]
  have hcne : nmCond ≠ nmFoilCond := by decide
  constructor
  · rintro ⟨val, hval⟩
    rw [runProduct_attempts, hpr] at hval
    simp only [hu', Bool.false_eq_true, if_false, Option.getD_some, List.mem_append] at hval
    rcases hval with hmA | hmB
    · obtain ⟨v', s', hv', hs', _, hne', hteq⟩ := blockAttempt_mem' p _ _ _ hmA
      rw [hv] at hv'
      rw [hsval] at hs'
      rw [Option.some_inj.mp hv', Option.some_inj.mp hs']
      exact hne'
    · obtain ⟨fv, s', hfv, hs', _, _, hteq⟩ := blockAttempt_mem' p _ _ _ hmB
      have hid : v.id = fv.id := by
        have := congrArg (fun x => x.2.1) hteq
        simpa using this
      exact absurd hid
        (findByCondition_distinct_ids p nmCond nmFoilCond v fv hvidp hv hfv hcne)
  · intro hne
    refine ⟨(parseFloatChars s).toFixed2, ?_⟩
    rw [runProduct_attempts, hpr]
    simp only [hu', Bool.false_eq_true, if_false, Option.getD_some, List.mem_append]
    left
    rw [hv, hsval]
    simp [blockAttempt, hsne, hne]

theorem runProduct_write_iff_foil (env : RunEnv) (p : Product) (pr : CardPrices)
    (hpr : scrapeCardPrices (env.scrape p.name) p.name = .ok (some pr))
    (hvidp : ((p.variants.getD []).map Variant.id).Nodup) (v : Variant) (s : Str)
    (hv : findByCondition p nmFoilCond = some v) (hsval : pr.foilPrice = some s)
    (hsne : s.isEmpty = false) :
    (∃ val, (p.id, v.id, val) ∈ writeAttemptsOf (runProduct env p).1) ↔
      jsStrictNe (parseFloatChars v.basePriceValue) (parseFloatChars s) = true := by
  have hu' : pricesUnusable (some pr) = false := by
    simp [pricesUnusable, strFalsy, hsval, hsne]
  have hcne : nmCond ≠ nmFoilCond := by decide
  constructor
  · rintro ⟨val, hval⟩
    rw [runProduct_attempts, hpr] at hval
    simp only [hu', Bool.false_eq_true, if_false, Option.getD_some, List.mem_append] at hval
    rcases hval with hmA | hmB
    · obtain ⟨nv, s', hnv, hs', _, _, hteq⟩ := blockAttempt_mem' p _ _ _ hmA
      have hid : v.id = nv.id := by
        have := congrArg (fun x => x.2.1) hteq
        simpa using this
      exact absurd hid
        (findByCondition_distinct_ids p nmFoilCond nmCond v nv hvidp hv hnv (Ne.symm hcne))
    · obtain ⟨v', s', hv', hs', _, hne', hteq⟩ := blockAttempt_mem' p _ _ _ hmB
      rw [hv] at hv'
      rw [hsval] at hs'
      rw [Option.some_inj.mp hv', Option.some_inj.mp hs']
      exact hne'
  · intro hne
    refine ⟨(parseFloatChars s).toFixed2, ?_⟩
    rw [runProduct_attempts, hpr]
    simp only [hu', Bool.false_eq_true, if_false, Option.getD_some, List.mem_append]
    right
    rw [hv, hsval]
    simp [blockAttempt, hsne, hne]


/-- C4: with accepted writes, a write for a found variant with a scraped price
string is issued exactly when the converted reference price differs under the
strict numeric comparison from the parsed current listed price; each
(product, variant) pair receives at most one write per run; and a second run
over the updated catalog with unchanged reference prices issues zero writes. -/
theorem c4_update_skip_idempotence (env : RunEnv) (products : List Product)
    (hw : ∀ pid vid, env.write.ok pid vid = true)
    (hscr : ∀ p ∈ products, exOk (scrapeCardPrices (env.scrape p.name) p.name) = true)
    (hpid : (products.map Product.id).Nodup)
    (hvid : ∀ p ∈ products, ((p.variants.getD []).map Variant.id).Nodup) :
    (∀ p ∈ products, ∀ pr, scrapeCardPrices (env.scrape p.name) p.name = .ok (some pr) →
      (∀ v s, findByCondition p nmCond = some v → pr.normalPrice = some s →
        ((∃ val, (p.id, v.id, val) ∈
            writeAttemptsOf (mainRun env (.ok products) true).events) ↔
          jsStrictNe (parseFloatChars v.basePriceValue) (parseFloatChars s) = true)) ∧
      (∀ v s, findByCondition p nmFoilCond = some v → pr.foilPrice = some s →
        ((∃ val, (p.id, v.id, val) ∈
            writeAttemptsOf (mainRun env (.ok products) true).events) ↔
          jsStrictNe (parseFloatChars v.basePriceValue) (parseFloatChars s) = true))) ∧
    (∀ pid vid, (writeAttemptsOf (mainRun env (.ok products) true).events).countP
      (fun t => t.1 == pid && t.2.1 == vid) ≤ 1) ∧
    writeAttemptsOf (mainRun env
      (.ok ((mainRun env (.ok products) true).finalCatalog)) true).events = [] := by
  refine ⟨?_, ?_, ?_⟩
  · intro p hp pr hpr
    constructor
    · intro v s hv hsval
      obtain ⟨r, hr⟩ := (scrape_ok_some (env.scrape p.name) p.name pr hpr).1 s hsval
      have hsne : s.isEmpty = false := by rw [hr]; exact toFixed2Chars_isEmpty r
      have hloc : ∀ val : Str,
          ((p.id, v.id, val) ∈ writeAttemptsOf (mainRun env (.ok products) true).events ↔
            (p.id, v.id, val) ∈ writeAttemptsOf (runProduct env p).1) :=
        fun val => mainRun_attempt_localize env products hscr hpid p hp (p.id, v.id, val) rfl
      rw [exists_congr hloc]
      exact runProduct_write_iff_nm env p pr hpr (hvid p hp) v s hv hsval hsne
    · intro v s hv hsval
      obtain ⟨r, hr⟩ := (scrape_ok_some (env.scrape p.name) p.name pr hpr).2 s hsval
      have hsne : s.isEmpty = false := by rw [hr]; exact toFixed2Chars_isEmpty r
      have hloc : ∀ val : Str,
          ((p.id, v.id, val) ∈ writeAttemptsOf (mainRun env (.ok products) true).events ↔
            (p.id, v.id, val) ∈ writeAttemptsOf (runProduct env p).1) :=
        fun val => mainRun_attempt_localize env products hscr hpid p hp (p.id, v.id, val) rfl
      rw [exists_congr hloc]
      exact runProduct_write_iff_foil env p pr hpr (hvid p hp) v s hv hsval hsne
  · intro pid vid
    rw [mainRun_attempts env products hscr]
    exact flatten_count_le_one env products hpid hvid pid vid
  · rw [mainRun_finalCatalog env products hscr]
    have hout : ∀ p ∈ products, (runProduct env p).2 = some (runProductOut env p) := by
      intro p hp
      exact option_some_getD _ p (by rw [runProduct_isSome]; exact hscr p hp)
    have hidem : ∀ p ∈ products,
        (runProductOut env p).name = p.name ∧
        (runProduct env (runProductOut env p)).2 = some (runProductOut env p) ∧
        writeAttemptsOf (runProduct env (runProductOut env p)).1 = [] := by
      intro p hp
      exact runProduct_idem env p hw (hvid p hp) (runProductOut env p) (hout p hp)
    have hscr2 : ∀ q ∈ products.map (runProductOut env),
        exOk (scrapeCardPrices (env.scrape q.name) q.name) = true := by
      intro q hq
      obtain ⟨p, hp, rfl⟩ := List.mem_map.mp hq
      rw [(hidem p hp).1]
      exact hscr p hp
    rw [mainRun_attempts env _ hscr2]
    apply flatten_nil_of_all_nil
    intro l hl
    obtain ⟨q, hq, rfl⟩ := List.mem_map.mp hl
    obtain ⟨p, hp, rfl⟩ := List.mem_map.mp hq
    exact (hidem p hp).2.2


/-- Sample Near Mint variant listed at 10.00. -/
def vNM : Variant := ⟨("v1").data, some nmCond, ("10.00").data⟩

/-- Sample Near Mint Foil variant listed at 20.00. -/
def vNMF : Variant := ⟨("v2").data, some nmFoilCond, ("20.00").data⟩

/-- Sample product "Gamma" with one Near Mint variant. -/
def prodC : Product := ⟨("pidC").data, ("Gamma").data, some [vNM]⟩

/-- Sample product "Delta" with both condition variants. -/
def prodD : Product := ⟨("pidD").data, ("Delta").data, some [vNM, vNMF]⟩

/-- Scrape environment that matches any of the sample names and shows a single
"Normal: $12.34" row; conversion is the identity. -/
def priceScrapeEnv : ScrapeEnv :=
  ⟨true, [⟨some ([]), some (("L").data)⟩], true,
    [⟨some (("Normal:").data), none⟩, ⟨none, some (("$12.34").data)⟩],
    fun d => .ok d⟩

/-- Write behavior accepting every update. -/
def okWriteEnv : WriteEnv := ⟨fun _ _ => true, fun _ _ => []⟩

/-- Write behavior rejecting every update with body "boom". -/
def failWriteEnv : WriteEnv := ⟨fun _ _ => false, fun _ _ => ("boom").data⟩

/-- Run environment: every lookup sees `priceScrapeEnv`, writes accepted. -/
def happyEnv : RunEnv := ⟨fun _ => priceScrapeEnv, okWriteEnv⟩

/-- C7 witness: a rejected write is logged with its body and, for a catalog
with one product whose price differs, the run under the all-failing write
behavior has the same exit code as under the all-accepting one. -/
theorem c7_write_failures_do_not_block_witness :
    updateProductVariant failWriteEnv (("pidC").data) (("v1").data)
        (JSNum.num ⟨1234, 2⟩) =
      [Event.writeAttempt (("pidC").data) (("v1").data) (("12.34").data),
        Event.updateFailedLog (("v1").data) (("boom").data)] ∧
    (mainRun ⟨happyEnv.scrape, failWriteEnv⟩ (.ok [prodC]) true).exitCode =
      (mainRun happyEnv (.ok [prodC]) true).exitCode := by
  have h := c7_write_failures_do_not_block happyEnv failWriteEnv [prodC]
    (("pidC").data) (("v1").data) (JSNum.num ⟨1234, 2⟩) rfl
  refine ⟨?_, h.2.1⟩
  rw [h.1]
  decide

/-- C8 witness: product "Delta" has both variants but only a normal price
scrapes, so the single write targets the Near Mint variant and the foil
variant survives the iteration unchanged. -/
theorem c8_partial_price_frame_witness :
    (∀ t ∈ writeAttemptsOf (runProduct happyEnv prodD).1,
      ∃ v, findByCondition prodD nmCond = some v ∧ t.2.1 = v.id) ∧
    (∀ t ∈ writeAttemptsOf (runProduct happyEnv prodD).1, t.2.1 ≠ vNMF.id) ∧
    (∀ p2, (runProduct happyEnv prodD).2 = some p2 →
      findByCondition p2 nmFoilCond = some vNMF) := by
  have h := (c8_partial_price_frame happyEnv prodD ⟨some (("12.34").data), none⟩
    (by rfl) (by decide)).1 rfl
  exact ⟨h.1, (h.2 vNMF (by decide)).1, (h.2 vNMF (by decide)).2⟩

/-- C4 witness: one product whose listed 10.00 differs from the scraped 12.34,
so the first run issues a write for its Near Mint variant and a second run over
the updated catalog issues none. -/
theorem c4_update_skip_idempotence_witness :
    (∃ val, ((("pidC").data, ("v1").data, val) ∈
      writeAttemptsOf (mainRun happyEnv (.ok [prodC]) true).events)) ∧
    writeAttemptsOf (mainRun happyEnv
      (.ok ((mainRun happyEnv (.ok [prodC]) true).finalCatalog)) true).events = [] := by
  have h := c4_update_skip_idempotence happyEnv [prodC]
    (fun pid vid => rfl)
    (by intro p hp; simp at hp; subst hp; rfl)
    (by decide)
    (by intro p hp; simp at hp; subst hp; decide)
  refine ⟨?_, h.2.2⟩
  have hiff := (h.1 prodC (by simp) ⟨some (("12.34").data), none⟩ (by rfl)).1
    vNM (("12.34").data) (by decide) rfl
  exact hiff.mpr (by decide)

end UpdatePrices
